import Mathlib

/-!
Verification of the chess engine in this repository (TypeScript sources under
`src/`).  The engine's data model and operations are shallowly embedded:
arrays become `List`, `null`/`undefined` become `Option`, JavaScript numbers
used as integers become `Int`/`Nat` (JS `%` on possibly-negative operands is
`Int.tmod`, `Math.floor` division is `Int.fdiv`), thrown exceptions become
`Except String`, and the engine's global mutable tables become explicit state
threaded through the functions.  Definitions mirror the source files
`src/engine/board/constants.ts`, `src/engine/board/utils.ts`,
`src/engine/board/fen.ts`, `src/engine/moves/generator.ts`,
`src/engine/moves/notation.ts`, `src/engine/evaluation/evaluate.ts`,
`src/engine/search/zobrist.ts`, `src/engine/search/transposition.ts`,
`src/engine/search/ordering.ts`, `src/engine/search/search.ts` and
`src/engine/ai/difficulty.ts`.
-/

namespace Chess

/-! ## Core types (`src/types/index.ts`) -/

inductive Color where
  | white
  | black
deriving DecidableEq, Repr

inductive PieceType where
  | pawn
  | knight
  | bishop
  | rook
  | queen
  | king
deriving DecidableEq, Repr

structure Piece where
  type : PieceType
  color : Color
deriving DecidableEq, Repr

/-- A board is the TS fixed-length-64 array of `Piece | null`.  Well-formed
boards have length 64; out-of-range reads give `none` (JS `undefined`). -/
abbrev Board := List (Option Piece)

structure CastlingRights where
  whiteKingside : Bool
  whiteQueenside : Bool
  blackKingside : Bool
  blackQueenside : Bool
deriving DecidableEq, Repr

structure Position where
  board : Board
  sideToMove : Color
  castlingRights : CastlingRights
  enPassantSquare : Option Nat
  halfmoveClock : Nat
  fullmoveNumber : Nat
deriving DecidableEq, Repr

inductive MoveType where
  | normal
  | capture
  | enPassant
  | castlingKingside
  | castlingQueenside
  | promotion
  | promotionCapture
deriving DecidableEq, Repr

structure Move where
  fromSq : Nat
  toSq : Nat
  piece : Piece
  moveType : MoveType
  captured : Option Piece := none
  promotion : Option PieceType := none
deriving DecidableEq, Repr

/-! ## Board constants and square utilities (`src/engine/board/constants.ts`)

Square indexing is rank-major: `index = rank*8 + file`.  The TS code performs
offset arithmetic on raw numbers that can leave `[0,63]`, so the arithmetic
helpers work on `Int` with JavaScript semantics (`%` keeps the dividend's
sign, `Math.floor` rounds down). -/

def toSquareIndex (file rank : Int) : Int := rank * 8 + file

/-- JS `square % 8`. -/
def getFile (square : Int) : Int := Int.tmod square 8

/-- JS `Math.floor(square / 8)`. -/
def getRank (square : Int) : Int := Int.fdiv square 8

def isValidFileRank (file rank : Int) : Bool :=
  decide (0 ≤ file) && decide (file < 8) && decide (0 ≤ rank) && decide (rank < 8)

/-- Knight move offsets from `KNIGHT_MOVES`. -/
def KNIGHT_MOVES : List Int := [17, 15, -15, -17, 10, -6, 6, -10]

/-- King move offsets from `KING_MOVES` (N, S, E, W, NE, NW, SE, SW). -/
def KING_MOVES : List Int := [8, -8, 1, -1, 9, 7, -7, -9]

/-- The eight compass directions, identified by their index offsets as in
`DIRECTION`.  The sliding-piece loops in the TS code branch on which
direction constant is being walked, updating file/rank; we record the per-step
(file, rank) delta of each direction. -/
def ROOK_DIRECTION_DELTAS : List (Int × Int) := [(0, 1), (0, -1), (1, 0), (-1, 0)]

def BISHOP_DIRECTION_DELTAS : List (Int × Int) := [(1, 1), (-1, 1), (1, -1), (-1, -1)]

def QUEEN_DIRECTION_DELTAS : List (Int × Int) :=
  ROOK_DIRECTION_DELTAS ++ BISHOP_DIRECTION_DELTAS

/-- `KING_START` -/
def KING_START_WHITE : Nat := 4
def KING_START_BLACK : Nat := 60

/-- `ROOK_START` -/
def ROOK_START_WHITE_KINGSIDE : Nat := 7
def ROOK_START_WHITE_QUEENSIDE : Nat := 0
def ROOK_START_BLACK_KINGSIDE : Nat := 63
def ROOK_START_BLACK_QUEENSIDE : Nat := 56

/-- `CASTLING_KING_DEST` -/
def CASTLING_KING_DEST_WHITE_KINGSIDE : Nat := 6
def CASTLING_KING_DEST_WHITE_QUEENSIDE : Nat := 2
def CASTLING_KING_DEST_BLACK_KINGSIDE : Nat := 62
def CASTLING_KING_DEST_BLACK_QUEENSIDE : Nat := 58

/-- `CASTLING_ROOK_DEST` -/
def CASTLING_ROOK_DEST_WHITE_KINGSIDE : Nat := 5
def CASTLING_ROOK_DEST_WHITE_QUEENSIDE : Nat := 3
def CASTLING_ROOK_DEST_BLACK_KINGSIDE : Nat := 61
def CASTLING_ROOK_DEST_BLACK_QUEENSIDE : Nat := 59

/-- `CASTLING_PATH` (squares the king passes through, must not be attacked). -/
def CASTLING_PATH_WHITE_KINGSIDE : List Nat := [5, 6]
def CASTLING_PATH_WHITE_QUEENSIDE : List Nat := [3, 2]
def CASTLING_PATH_BLACK_KINGSIDE : List Nat := [61, 62]
def CASTLING_PATH_BLACK_QUEENSIDE : List Nat := [59, 58]

/-- `CASTLING_EMPTY` (squares that must be empty). -/
def CASTLING_EMPTY_WHITE_KINGSIDE : List Nat := [5, 6]
def CASTLING_EMPTY_WHITE_QUEENSIDE : List Nat := [1, 2, 3]
def CASTLING_EMPTY_BLACK_KINGSIDE : List Nat := [61, 62]
def CASTLING_EMPTY_BLACK_QUEENSIDE : List Nat := [57, 58, 59]

/-! ## Board utilities (`src/engine/board/utils.ts`) -/

def createEmptyBoard : Board := List.replicate 64 none

/-- Read `board[square]` for a possibly out-of-range `Int` index: negative or
too-large indices give JS `undefined`, i.e. `none`. -/
def pieceAtInt (board : Board) (square : Int) : Option Piece :=
  if square < 0 then none else (board.getD square.toNat none)

/-- `getPiece` / direct indexing for a `Nat` square. -/
def getPiece (board : Board) (square : Nat) : Option Piece :=
  board.getD square none

def isEmptySq (board : Board) (square : Nat) : Bool :=
  getPiece board square == none

def isEnemy (board : Board) (square : Nat) (color : Color) : Bool :=
  match getPiece board square with
  | none => false
  | some p => p.color != color

def isFriendly (board : Board) (square : Nat) (color : Color) : Bool :=
  match getPiece board square with
  | none => false
  | some p => p.color == color

/-- `findKing`: the first square holding the king of `color`.  The TS version
throws when no king exists; we return `none` there, and theorems that depend
on check detection assume a king is present. -/
def findKing (board : Board) (color : Color) : Option Nat :=
  board.findIdx? (fun p => p == some ⟨PieceType.king, color⟩)

def oppositeColor (color : Color) : Color :=
  match color with
  | Color.white => Color.black
  | Color.black => Color.white

/-! ## Attack detection (`src/engine/moves/generator.ts`) -/

def isPawnAttacking (board : Board) (square : Nat) (attackingColor : Color) : Bool :=
  let file : Int := getFile square
  let rank : Int := getRank square
  let pawnRank : Int := if attackingColor == Color.white then rank - 1 else rank + 1
  if pawnRank < 0 || pawnRank > 7 then false
  else
    let left :=
      if file > 0 then
        match pieceAtInt board (toSquareIndex (file - 1) pawnRank) with
        | some p => p.type == PieceType.pawn && p.color == attackingColor
        | none => false
      else false
    let right :=
      if file < 7 then
        match pieceAtInt board (toSquareIndex (file + 1) pawnRank) with
        | some p => p.type == PieceType.pawn && p.color == attackingColor
        | none => false
      else false
    left || right

def isKnightAttacking (board : Board) (square : Nat) (attackingColor : Color) : Bool :=
  let file : Int := getFile square
  let rank : Int := getRank square
  KNIGHT_MOVES.any fun offset =>
    let targetSquare : Int := (square : Int) + offset
    let fileDiff := (getFile targetSquare - file).natAbs
    let rankDiff := (getRank targetSquare - rank).natAbs
    if !((fileDiff == 1 && rankDiff == 2) || (fileDiff == 2 && rankDiff == 1)) then false
    else if targetSquare < 0 || targetSquare > 63 then false
    else
      match pieceAtInt board targetSquare with
      | some p => p.type == PieceType.knight && p.color == attackingColor
      | none => false

def isKingAttacking (board : Board) (square : Nat) (attackingColor : Color) : Bool :=
  let file : Int := getFile square
  let rank : Int := getRank square
  KING_MOVES.any fun offset =>
    let targetSquare : Int := (square : Int) + offset
    let fileDiff := (getFile targetSquare - file).natAbs
    let rankDiff := (getRank targetSquare - rank).natAbs
    if fileDiff > 1 || rankDiff > 1 then false
    else if targetSquare < 0 || targetSquare > 63 then false
    else
      match pieceAtInt board targetSquare with
      | some p => p.type == PieceType.king && p.color == attackingColor
      | none => false

/-- One ray walk of the `while (true)` loops in `isSlidingPieceAttacking`:
step, stop at the board edge, and at the first piece report whether it is an
attacker of one of the two given kinds.  Each loop runs at most 8 iterations
(file or rank changes by 1 each step and must stay in `[0,7]`), so fuel 8 is
exact. -/
def slidingRayAttacks (board : Board) (attackingColor : Color)
    (kindA kindB : PieceType) (df dr : Int) :
    Nat → Int → Int → Bool
  | 0, _, _ => false
  | fuel + 1, currentFile, currentRank =>
    let f := currentFile + df
    let r := currentRank + dr
    if !isValidFileRank f r then false
    else
      match pieceAtInt board (toSquareIndex f r) with
      | some p =>
        p.color == attackingColor && (p.type == kindA || p.type == kindB)
      | none => slidingRayAttacks board attackingColor kindA kindB df dr fuel f r

def isSlidingPieceAttacking (board : Board) (square : Nat) (attackingColor : Color) : Bool :=
  let file : Int := getFile square
  let rank : Int := getRank square
  (ROOK_DIRECTION_DELTAS.any fun d =>
    slidingRayAttacks board attackingColor PieceType.rook PieceType.queen d.1 d.2 8 file rank)
  || (BISHOP_DIRECTION_DELTAS.any fun d =>
    slidingRayAttacks board attackingColor PieceType.bishop PieceType.queen d.1 d.2 8 file rank)

def isSquareAttacked (board : Board) (square : Nat) (attackingColor : Color) : Bool :=
  isPawnAttacking board square attackingColor
  || isKnightAttacking board square attackingColor
  || isKingAttacking board square attackingColor
  || isSlidingPieceAttacking board square attackingColor

def isInCheck (board : Board) (color : Color) : Bool :=
  match findKing board color with
  | some kingSquare => isSquareAttacked board kingSquare (oppositeColor color)
  | none => false

/-! ## Pseudo-legal move generation (`src/engine/moves/generator.ts`) -/

def addPromotionMoves (fromSq toSq : Nat) (piece : Piece) (captured : Option Piece) :
    List Move :=
  let moveType := if captured.isSome then MoveType.promotionCapture else MoveType.promotion
  [PieceType.queen, PieceType.rook, PieceType.bishop, PieceType.knight].map fun promotion =>
    { fromSq := fromSq, toSq := toSq, piece := piece, moveType := moveType,
      captured := captured, promotion := some promotion }

def generatePawnMoves (position : Position) (fromSq : Nat) (piece : Piece) : List Move :=
  let board := position.board
  let file : Int := getFile fromSq
  let rank : Int := getRank fromSq
  let isWhite := piece.color == Color.white
  let direction : Int := if isWhite then 1 else -1
  let startRank : Int := if isWhite then 1 else 6
  let promotionRank : Int := if isWhite then 7 else 0
  let singlePushRank := rank + direction
  let pushes :=
    if isValidFileRank file singlePushRank then
      let singlePushSquare := (toSquareIndex file singlePushRank).toNat
      if isEmptySq board singlePushSquare then
        if singlePushRank == promotionRank then
          addPromotionMoves fromSq singlePushSquare piece none
        else
          let single : Move :=
            { fromSq := fromSq, toSq := singlePushSquare, piece := piece,
              moveType := MoveType.normal }
          if rank == startRank then
            let doublePushRank := rank + 2 * direction
            let doublePushSquare := (toSquareIndex file doublePushRank).toNat
            if isEmptySq board doublePushSquare then
              [single,
               { fromSq := fromSq, toSq := doublePushSquare, piece := piece,
                 moveType := MoveType.normal }]
            else [single]
          else [single]
      else []
    else []
  let captures :=
    [file - 1, file + 1].flatMap fun captureFile =>
      if !isValidFileRank captureFile singlePushRank then []
      else
        let captureSquare := (toSquareIndex captureFile singlePushRank).toNat
        let regular :=
          if isEnemy board captureSquare piece.color then
            match getPiece board captureSquare with
            | some captured =>
              if singlePushRank == promotionRank then
                addPromotionMoves fromSq captureSquare piece (some captured)
              else
                [{ fromSq := fromSq, toSq := captureSquare, piece := piece,
                   moveType := MoveType.capture, captured := some captured }]
            | none => []
          else []
        let ep :=
          if position.enPassantSquare == some captureSquare then
            let capturedPawnSquare := (toSquareIndex captureFile rank).toNat
            match getPiece board capturedPawnSquare with
            | some capturedPawn =>
              [{ fromSq := fromSq, toSq := captureSquare, piece := piece,
                 moveType := MoveType.enPassant, captured := some capturedPawn }]
            | none => []
          else []
        regular ++ ep
  pushes ++ captures

def generateKnightMoves (board : Board) (fromSq : Nat) (piece : Piece) : List Move :=
  let file : Int := getFile fromSq
  let rank : Int := getRank fromSq
  KNIGHT_MOVES.flatMap fun offset =>
    let toSq : Int := (fromSq : Int) + offset
    let fileDiff := (getFile toSq - file).natAbs
    let rankDiff := (getRank toSq - rank).natAbs
    if !((fileDiff == 1 && rankDiff == 2) || (fileDiff == 2 && rankDiff == 1)) then []
    else if toSq < 0 || toSq > 63 then []
    else if isFriendly board toSq.toNat piece.color then []
    else
      let captured := getPiece board toSq.toNat
      [{ fromSq := fromSq, toSq := toSq.toNat, piece := piece,
         moveType := if captured.isSome then MoveType.capture else MoveType.normal,
         captured := captured }]

/-- One ray of `generateSlidingMoves`; fuel 8 covers the at-most-8 loop
iterations exactly as for `slidingRayAttacks`. -/
def slidingRayMoves (board : Board) (fromSq : Nat) (piece : Piece) (df dr : Int) :
    Nat → Int → Int → List Move
  | 0, _, _ => []
  | fuel + 1, currentFile, currentRank =>
    let f := currentFile + df
    let r := currentRank + dr
    if !isValidFileRank f r then []
    else
      let toSq := (toSquareIndex f r).toNat
      if isFriendly board toSq piece.color then []
      else
        let captured := getPiece board toSq
        let mv : Move :=
          { fromSq := fromSq, toSq := toSq, piece := piece,
            moveType := if captured.isSome then MoveType.capture else MoveType.normal,
            captured := captured }
        if captured.isSome then [mv]
        else mv :: slidingRayMoves board fromSq piece df dr fuel f r

def generateSlidingMoves (board : Board) (fromSq : Nat) (piece : Piece)
    (directions : List (Int × Int)) : List Move :=
  directions.flatMap fun d =>
    slidingRayMoves board fromSq piece d.1 d.2 8 (getFile fromSq) (getRank fromSq)

def generateBishopMoves (board : Board) (fromSq : Nat) (piece : Piece) : List Move :=
  generateSlidingMoves board fromSq piece BISHOP_DIRECTION_DELTAS

def generateRookMoves (board : Board) (fromSq : Nat) (piece : Piece) : List Move :=
  generateSlidingMoves board fromSq piece ROOK_DIRECTION_DELTAS

def generateQueenMoves (board : Board) (fromSq : Nat) (piece : Piece) : List Move :=
  generateSlidingMoves board fromSq piece QUEEN_DIRECTION_DELTAS

def generateKingMoves (position : Position) (fromSq : Nat) (piece : Piece) : List Move :=
  let board := position.board
  let castlingRights := position.castlingRights
  let sideToMove := position.sideToMove
  let file : Int := getFile fromSq
  let rank : Int := getRank fromSq
  let normal :=
    KING_MOVES.flatMap fun offset =>
      let toSq : Int := (fromSq : Int) + offset
      let fileDiff := (getFile toSq - file).natAbs
      let rankDiff := (getRank toSq - rank).natAbs
      if fileDiff > 1 || rankDiff > 1 then []
      else if toSq < 0 || toSq > 63 then []
      else if isFriendly board toSq.toNat piece.color then []
      else
        let captured := getPiece board toSq.toNat
        [{ fromSq := fromSq, toSq := toSq.toNat, piece := piece,
           moveType := if captured.isSome then MoveType.capture else MoveType.normal,
           captured := captured }]
  let isWhite := sideToMove == Color.white
  let enemyColor := if isWhite then Color.black else Color.white
  let kingStart := if isWhite then KING_START_WHITE else KING_START_BLACK
  if fromSq != kingStart then normal
  else if isSquareAttacked board fromSq enemyColor then normal
  else
    let canKingside :=
      if isWhite then castlingRights.whiteKingside else castlingRights.blackKingside
    let kingside :=
      if canKingside then
        let emptySquares :=
          if isWhite then CASTLING_EMPTY_WHITE_KINGSIDE else CASTLING_EMPTY_BLACK_KINGSIDE
        let pathSquares :=
          if isWhite then CASTLING_PATH_WHITE_KINGSIDE else CASTLING_PATH_BLACK_KINGSIDE
        let kingDest :=
          if isWhite then CASTLING_KING_DEST_WHITE_KINGSIDE
          else CASTLING_KING_DEST_BLACK_KINGSIDE
        let allEmpty := emptySquares.all fun sq => isEmptySq board sq
        let pathSafe := pathSquares.all fun sq => !isSquareAttacked board sq enemyColor
        if allEmpty && pathSafe then
          [{ fromSq := fromSq, toSq := kingDest, piece := piece,
             moveType := MoveType.castlingKingside }]
        else []
      else []
    let canQueenside :=
      if isWhite then castlingRights.whiteQueenside else castlingRights.blackQueenside
    let queenside :=
      if canQueenside then
        let emptySquares :=
          if isWhite then CASTLING_EMPTY_WHITE_QUEENSIDE else CASTLING_EMPTY_BLACK_QUEENSIDE
        let pathSquares :=
          if isWhite then CASTLING_PATH_WHITE_QUEENSIDE else CASTLING_PATH_BLACK_QUEENSIDE
        let kingDest :=
          if isWhite then CASTLING_KING_DEST_WHITE_QUEENSIDE
          else CASTLING_KING_DEST_BLACK_QUEENSIDE
        let allEmpty := emptySquares.all fun sq => isEmptySq board sq
        let pathSafe := pathSquares.all fun sq => !isSquareAttacked board sq enemyColor
        if allEmpty && pathSafe then
          [{ fromSq := fromSq, toSq := kingDest, piece := piece,
             moveType := MoveType.castlingQueenside }]
        else []
      else []
    normal ++ kingside ++ queenside

def generatePseudoLegalMoves (position : Position) : List Move :=
  (List.range 64).flatMap fun square =>
    match getPiece position.board square with
    | none => []
    | some piece =>
      if piece.color != position.sideToMove then []
      else
        match piece.type with
        | PieceType.pawn => generatePawnMoves position square piece
        | PieceType.knight => generateKnightMoves position.board square piece
        | PieceType.bishop => generateBishopMoves position.board square piece
        | PieceType.rook => generateRookMoves position.board square piece
        | PieceType.queen => generateQueenMoves position.board square piece
        | PieceType.king => generateKingMoves position square piece

/-! ## Make-move and legality (`src/engine/moves/generator.ts`) -/

def makeMove (position : Position) (move : Move) : Position :=
  let board := position.board
  let fromSq := move.fromSq
  let toSq := move.toSq
  let piece := getPiece board fromSq
  let board1 := board.set fromSq none
  let board2 :=
    match move.moveType with
    | MoveType.enPassant =>
      let capturedPawnRank := getRank fromSq
      let capturedPawnFile := getFile toSq
      let capturedPawnSquare := (toSquareIndex capturedPawnFile capturedPawnRank).toNat
      (board1.set capturedPawnSquare none).set toSq piece
    | MoveType.castlingKingside =>
      let b := board1.set toSq piece
      let isWhite := (piece.map Piece.color) == some Color.white
      let rookFrom := if isWhite then ROOK_START_WHITE_KINGSIDE else ROOK_START_BLACK_KINGSIDE
      let rookTo :=
        if isWhite then CASTLING_ROOK_DEST_WHITE_KINGSIDE
        else CASTLING_ROOK_DEST_BLACK_KINGSIDE
      (b.set rookTo (getPiece b rookFrom)).set rookFrom none
    | MoveType.castlingQueenside =>
      let b := board1.set toSq piece
      let isWhite := (piece.map Piece.color) == some Color.white
      let rookFrom := if isWhite then ROOK_START_WHITE_QUEENSIDE else ROOK_START_BLACK_QUEENSIDE
      let rookTo :=
        if isWhite then CASTLING_ROOK_DEST_WHITE_QUEENSIDE
        else CASTLING_ROOK_DEST_BLACK_QUEENSIDE
      (b.set rookTo (getPiece b rookFrom)).set rookFrom none
    | MoveType.promotion =>
      match piece, move.promotion with
      | some p, some promo => board1.set toSq (some ⟨promo, p.color⟩)
      | _, _ => board1
    | MoveType.promotionCapture =>
      match piece, move.promotion with
      | some p, some promo => board1.set toSq (some ⟨promo, p.color⟩)
      | _, _ => board1
    | _ => board1.set toSq piece
  let enPassantSquare :=
    match piece with
    | some p =>
      if p.type == PieceType.pawn then
        let rankDiff := (getRank toSq - getRank fromSq).natAbs
        if rankDiff == 2 then
          let epRank := (getRank fromSq + getRank toSq) / 2
          some (toSquareIndex (getFile fromSq) epRank).toNat
        else none
      else none
    | none => none
  let cr := position.castlingRights
  let kingCleared :=
    match piece with
    | some p =>
      if p.type == PieceType.king then
        if p.color == Color.white then
          { cr with whiteKingside := false, whiteQueenside := false }
        else
          { cr with blackKingside := false, blackQueenside := false }
      else cr
    | none => cr
  let newCastlingRights :=
    { kingCleared with
      whiteKingside :=
        kingCleared.whiteKingside
        && !(fromSq == ROOK_START_WHITE_KINGSIDE || toSq == ROOK_START_WHITE_KINGSIDE),
      whiteQueenside :=
        kingCleared.whiteQueenside
        && !(fromSq == ROOK_START_WHITE_QUEENSIDE || toSq == ROOK_START_WHITE_QUEENSIDE),
      blackKingside :=
        kingCleared.blackKingside
        && !(fromSq == ROOK_START_BLACK_KINGSIDE || toSq == ROOK_START_BLACK_KINGSIDE),
      blackQueenside :=
        kingCleared.blackQueenside
        && !(fromSq == ROOK_START_BLACK_QUEENSIDE || toSq == ROOK_START_BLACK_QUEENSIDE) }
  let halfmoveClock :=
    if (piece.map Piece.type) == some PieceType.pawn || move.captured.isSome then 0
    else position.halfmoveClock + 1
  let fullmoveNumber :=
    if position.sideToMove == Color.black then position.fullmoveNumber + 1
    else position.fullmoveNumber
  { board := board2,
    sideToMove := oppositeColor position.sideToMove,
    castlingRights := newCastlingRights,
    enPassantSquare := enPassantSquare,
    halfmoveClock := halfmoveClock,
    fullmoveNumber := fullmoveNumber }

def isMoveLegal (position : Position) (move : Move) : Bool :=
  let newPosition := makeMove position move
  !isInCheck newPosition.board position.sideToMove

def generateLegalMoves (position : Position) : List Move :=
  (generatePseudoLegalMoves position).filter fun move => isMoveLegal position move

/-! ## FEN codec (`src/engine/board/fen.ts`)

The TS code works on JavaScript strings; here the string operations
(`trim`, `split(/\s+/)`, `split('/')`, `parseInt`, `toString`) are modelled
on `List Char` with JavaScript semantics. -/

/-- JS `fen.trim()`: strip leading and trailing whitespace. -/
def charTrim (cs : List Char) : List Char :=
  ((cs.dropWhile Char.isWhitespace).reverse.dropWhile Char.isWhitespace).reverse

/-- JS `parts.join(sep)` for a single-character separator. -/
def joinSep (sep : Char) : List (List Char) → List Char
  | [] => []
  | [x] => x
  | x :: xs => x ++ sep :: joinSep sep xs

/- JS `s.split(/\s+/)`: split at maximal whitespace runs.  `splitWsAux`
accumulates the current segment (reversed); `splitWsSkip` consumes the rest
of a whitespace run. -/
mutual

def splitWsAux : List Char → List Char → List (List Char)
  | [], acc => [acc.reverse]
  | c :: rest, acc =>
    if c.isWhitespace then acc.reverse :: splitWsSkip rest
    else splitWsAux rest (c :: acc)

def splitWsSkip : List Char → List (List Char)
  | [] => [[]]
  | c :: rest => if c.isWhitespace then splitWsSkip rest else splitWsAux rest [c]

end

def splitWs (cs : List Char) : List (List Char) := splitWsAux cs []

/-- JS `s.split(sep)` for a single-character separator. -/
def splitOnSep (sep : Char) : List Char → List (List Char)
  | [] => [[]]
  | c :: rest =>
    if c = sep then [] :: splitOnSep sep rest
    else
      match splitOnSep sep rest with
      | s :: ss => (c :: s) :: ss
      | [] => [[c]]

/-- JS `parseInt(s, 10)`: skip whitespace, optional sign, then leading
decimal digits; `none` is `NaN`. -/
def parseIntTs (cs : List Char) : Option Int :=
  let cs1 := cs.dropWhile Char.isWhitespace
  let sign : Int := if cs1.head? = some '-' then -1 else 1
  let cs2 := if cs1.head? = some '-' || cs1.head? = some '+' then cs1.tail else cs1
  let ds := cs2.takeWhile Char.isDigit
  if ds.isEmpty then none
  else some (sign * ds.foldl (fun a c => a * 10 + ((c.toNat : Int) - 48)) 0)

/-- JS `n.toString()` for a non-negative integer, with structural fuel
(the fuel strictly exceeds the value, which bounds the digit count). -/
def natToCharsGo : Nat → Nat → List Char
  | 0, _ => []
  | fuel + 1, n =>
    if n < 10 then [Char.ofNat (48 + n)]
    else natToCharsGo fuel (n / 10) ++ [Char.ofNat (48 + n % 10)]

def natToChars (n : Nat) : List Char := natToCharsGo (n + 1) n

/-- `PIECE_CHARS`: FEN letter to piece. -/
def pieceFromCharFEN (c : Char) : Option Piece :=
  match c with
  | 'P' => some ⟨PieceType.pawn, Color.white⟩
  | 'N' => some ⟨PieceType.knight, Color.white⟩
  | 'B' => some ⟨PieceType.bishop, Color.white⟩
  | 'R' => some ⟨PieceType.rook, Color.white⟩
  | 'Q' => some ⟨PieceType.queen, Color.white⟩
  | 'K' => some ⟨PieceType.king, Color.white⟩
  | 'p' => some ⟨PieceType.pawn, Color.black⟩
  | 'n' => some ⟨PieceType.knight, Color.black⟩
  | 'b' => some ⟨PieceType.bishop, Color.black⟩
  | 'r' => some ⟨PieceType.rook, Color.black⟩
  | 'q' => some ⟨PieceType.queen, Color.black⟩
  | 'k' => some ⟨PieceType.king, Color.black⟩
  | _ => none

/-- `PIECE_TO_CHAR`: piece to FEN letter. -/
def pieceToCharFEN (p : Piece) : Char :=
  match p.color, p.type with
  | Color.white, PieceType.pawn => 'P'
  | Color.white, PieceType.knight => 'N'
  | Color.white, PieceType.bishop => 'B'
  | Color.white, PieceType.rook => 'R'
  | Color.white, PieceType.queen => 'Q'
  | Color.white, PieceType.king => 'K'
  | Color.black, PieceType.pawn => 'p'
  | Color.black, PieceType.knight => 'n'
  | Color.black, PieceType.bishop => 'b'
  | Color.black, PieceType.rook => 'r'
  | Color.black, PieceType.queen => 'q'
  | Color.black, PieceType.king => 'k'

/-- `FILE_INDEX` lookup (notationToIndex first character). -/
def fileIndexOfChar (c : Char) : Option Nat :=
  if 'a' ≤ c && c ≤ 'h' then some (c.toNat - 97) else none

/-- `RANK_INDEX` lookup (notationToIndex second character). -/
def rankIndexOfChar (c : Char) : Option Nat :=
  if '1' ≤ c && c ≤ '8' then some (c.toNat - 49) else none

/-- `indexToNotation` for an in-range square (the TS version throws for rank
indices outside `[0,7]`; theorems using it assume `index < 64`). -/
def indexToAlgebraic (index : Nat) : List Char :=
  [Char.ofNat (97 + index % 8), Char.ofNat (49 + index / 8)]

/-- The inner character loop of `parsePiecePlacement` for one rank, with the
squares parsed so far playing the role of `fileIdx` (the accumulator length)
and the per-square board writes. -/
def parseRankAux : List Char → List (Option Piece) → Except String (List (Option Piece))
  | [], acc =>
    if acc.length = 8 then Except.ok acc
    else Except.error "Invalid piece placement: bad rank length"
  | c :: rest, acc =>
    if acc.length ≥ 8 then
      Except.error "Invalid piece placement: too many squares in rank"
    else if c.isDigit then
      let digit := c.toNat - 48
      if digit < 1 ∨ digit > 8 then Except.error "Invalid empty square count"
      else parseRankAux rest (acc ++ List.replicate digit none)
    else
      match pieceFromCharFEN c with
      | some pieceInfo => parseRankAux rest (acc ++ [some pieceInfo])
      | none => Except.error "Invalid piece character"

/-- The `rankIdx` loop of `parsePiecePlacement`: rank index 0 reads FEN rank
string 7 and so on, assembling the board bottom rank first exactly as the TS
writes squares `rank*8 + file`. -/
def parseRanksLoop (ranks : List (List Char)) : List Nat → Except String Board
  | [] => Except.ok []
  | rankIdx :: rest => do
    let row ← parseRankAux (ranks.getD (7 - rankIdx) []) []
    let restRows ← parseRanksLoop ranks rest
    pure (row ++ restRows)

/-- `parsePiecePlacement`: split on `/`, require 8 ranks, loop `rankIdx`
from 0 to 7. -/
def parsePiecePlacement (placement : List Char) : Except String Board :=
  let ranks := splitOnSep '/' placement
  if ranks.length ≠ 8 then
    Except.error "Invalid piece placement: expected 8 ranks"
  else
    parseRanksLoop ranks (List.range 8)

def parseSideToMove (side : List Char) : Except String Color :=
  if side = ['w'] then Except.ok Color.white
  else if side = ['b'] then Except.ok Color.black
  else Except.error "Invalid side to move"

def parseCastlingRights (castling : List Char) : CastlingRights :=
  if castling = ['-'] then
    ⟨false, false, false, false⟩
  else
    { whiteKingside := castling.contains 'K',
      whiteQueenside := castling.contains 'Q',
      blackKingside := castling.contains 'k',
      blackQueenside := castling.contains 'q' }

def parseEnPassant (ep : List Char) : Except String (Option Nat) :=
  if ep = ['-'] then Except.ok none
  else if ep.length ≠ 2 then Except.error "Invalid en passant square"
  else
    match fileIndexOfChar (ep.getD 0 ' '), rankIndexOfChar (ep.getD 1 ' ') with
    | some file, some rank => Except.ok (some (rank * 8 + file))
    | _, _ => Except.error "Invalid en passant square"

/-- `parseFen`. -/
def parseFen (fen : String) : Except String Position := do
  let parts := splitWs (charTrim fen.data)
  if parts.length < 4 then
    throw "Invalid FEN: expected at least 4 parts"
  else
    let board ← parsePiecePlacement (parts.getD 0 [])
    let side ← parseSideToMove (parts.getD 1 [])
    let castlingRights := parseCastlingRights (parts.getD 2 ['-'])
    let enPassantSquare ← parseEnPassant (parts.getD 3 ['-'])
    let halfmoveClock ←
      match parts[4]? with
      | none => pure 0
      | some halfmove =>
        match parseIntTs halfmove with
        | none => throw "Invalid halfmove clock"
        | some v => if v < 0 then throw "Invalid halfmove clock" else pure v.toNat
    let fullmoveNumber ←
      match parts[5]? with
      | none => pure 1
      | some fullmove =>
        match parseIntTs fullmove with
        | none => throw "Invalid fullmove number"
        | some v => if v < 1 then throw "Invalid fullmove number" else pure v.toNat
    pure { board := board, sideToMove := side, castlingRights := castlingRights,
           enPassantSquare := enPassantSquare, halfmoveClock := halfmoveClock,
           fullmoveNumber := fullmoveNumber }

/-- The eight squares of rank `r` in file order, as read by
`generatePiecePlacement`. -/
def rankSquares (board : Board) (r : Nat) : List (Option Piece) :=
  (List.range 8).map fun f => getPiece board (r * 8 + f)

/-- The `emptyCount` run-length loop of `generatePiecePlacement` over one
rank, with `pending` the current `emptyCount`. -/
def emitRankAux (pending : Nat) : List (Option Piece) → List Char
  | [] => if pending > 0 then natToChars pending else []
  | none :: rest => emitRankAux (pending + 1) rest
  | some p :: rest =>
    (if pending > 0 then natToChars pending else []) ++ pieceToCharFEN p :: emitRankAux 0 rest

/-- `generatePiecePlacement`: ranks 7 down to 0, joined by `/`. -/
def generatePiecePlacement (board : Board) : List Char :=
  joinSep '/' ((List.range 8).map fun i => emitRankAux 0 (rankSquares board (7 - i)))

/-- `generateCastlingRights`. -/
def generateCastlingRights (rights : CastlingRights) : List Char :=
  let result :=
    (if rights.whiteKingside then ['K'] else [])
    ++ (if rights.whiteQueenside then ['Q'] else [])
    ++ (if rights.blackKingside then ['k'] else [])
    ++ (if rights.blackQueenside then ['q'] else [])
  if result.isEmpty then ['-'] else result

/-- The en-passant field of `toFen`: algebraic square or `-`. -/
def epFieldChars (ep : Option Nat) : List Char :=
  match ep with
  | some sq => indexToAlgebraic sq
  | none => ['-']

/-- `toFen`: the six space-separated FEN fields. -/
def toFen (position : Position) : String :=
  String.mk (joinSep ' '
    [generatePiecePlacement position.board,
     (if position.sideToMove = Color.white then ['w'] else ['b']),
     generateCastlingRights position.castlingRights,
     epFieldChars position.enPassantSquare,
     natToChars position.halfmoveClock,
     natToChars position.fullmoveNumber])

/-- King counting in `validateFen`. -/
def countKings (board : Board) (color : Color) : Nat :=
  board.countP fun sq =>
    match sq with
    | some p => p.type == PieceType.king && p.color == color
    | none => false

/-- `validateFen` (as a Boolean: the `isValid` field of the TS result). -/
def validateFen (fen : String) : Bool :=
  match parseFen fen with
  | Except.error _ => false
  | Except.ok position =>
    countKings position.board Color.white == 1 && countKings position.board Color.black == 1

/-- A small concrete position: white king a1, white pawn b6, black king h8,
white to move. -/
def samplePosKPk : Position :=
  { board :=
      (((List.replicate 64 (none : Option Piece)).set 0
          (some ⟨PieceType.king, Color.white⟩)).set 41
          (some ⟨PieceType.pawn, Color.white⟩)).set 63
          (some ⟨PieceType.king, Color.black⟩),
    sideToMove := Color.white,
    castlingRights := ⟨false, false, false, false⟩,
    enPassantSquare := none,
    halfmoveClock := 0,
    fullmoveNumber := 1 }

/-- Decidable equality for `Except` results (componentwise). -/
instance exceptDecEq {ε α : Type} [DecidableEq ε] [DecidableEq α] :
    DecidableEq (Except ε α) := fun a b =>
  match a, b with
  | Except.ok x, Except.ok y =>
    if h : x = y then isTrue (congrArg Except.ok h)
    else isFalse fun hc => h (Except.ok.inj hc)
  | Except.error x, Except.error y =>
    if h : x = y then isTrue (congrArg Except.error h)
    else isFalse fun hc => h (Except.error.inj hc)
  | Except.ok _, Except.error _ => isFalse fun hc => Except.noConfusion hc
  | Except.error _, Except.ok _ => isFalse fun hc => Except.noConfusion hc

/-! ## Evaluation (`src/engine/evaluation/evaluate.ts`)

Scores are centipawns from White's point of view, as `Int`. -/

/-- `PIECE_VALUES` (centipawns). -/
def PIECE_VALUES (t : PieceType) : Int :=
  match t with
  | PieceType.pawn => 100
  | PieceType.knight => 320
  | PieceType.bishop => 330
  | PieceType.rook => 500
  | PieceType.queen => 900
  | PieceType.king => 20000

def PAWN_PST : List Int :=
  [0, 0, 0, 0, 0, 0, 0, 0,
   50, 50, 50, 50, 50, 50, 50, 50,
   10, 10, 20, 30, 30, 20, 10, 10,
   5, 5, 10, 25, 25, 10, 5, 5,
   0, 0, 0, 20, 20, 0, 0, 0,
   5, -5, -10, 0, 0, -10, -5, 5,
   5, 10, 10, -20, -20, 10, 10, 5,
   0, 0, 0, 0, 0, 0, 0, 0]

def KNIGHT_PST : List Int :=
  [-50, -40, -30, -30, -30, -30, -40, -50,
   -40, -20, 0, 0, 0, 0, -20, -40,
   -30, 0, 10, 15, 15, 10, 0, -30,
   -30, 5, 15, 20, 20, 15, 5, -30,
   -30, 0, 15, 20, 20, 15, 0, -30,
   -30, 5, 10, 15, 15, 10, 5, -30,
   -40, -20, 0, 5, 5, 0, -20, -40,
   -50, -40, -30, -30, -30, -30, -40, -50]

def BISHOP_PST : List Int :=
  [-20, -10, -10, -10, -10, -10, -10, -20,
   -10, 0, 0, 0, 0, 0, 0, -10,
   -10, 0, 5, 10, 10, 5, 0, -10,
   -10, 5, 5, 10, 10, 5, 5, -10,
   -10, 0, 10, 10, 10, 10, 0, -10,
   -10, 10, 10, 10, 10, 10, 10, -10,
   -10, 5, 0, 0, 0, 0, 5, -10,
   -20, -10, -10, -10, -10, -10, -10, -20]

def ROOK_PST : List Int :=
  [0, 0, 0, 0, 0, 0, 0, 0,
   5, 10, 10, 10, 10, 10, 10, 5,
   -5, 0, 0, 0, 0, 0, 0, -5,
   -5, 0, 0, 0, 0, 0, 0, -5,
   -5, 0, 0, 0, 0, 0, 0, -5,
   -5, 0, 0, 0, 0, 0, 0, -5,
   -5, 0, 0, 0, 0, 0, 0, -5,
   0, 0, 0, 5, 5, 0, 0, 0]

def QUEEN_PST : List Int :=
  [-20, -10, -10, -5, -5, -10, -10, -20,
   -10, 0, 0, 0, 0, 0, 0, -10,
   -10, 0, 5, 5, 5, 5, 0, -10,
   -5, 0, 5, 5, 5, 5, 0, -5,
   0, 0, 5, 5, 5, 5, 0, -5,
   -10, 5, 5, 5, 5, 5, 0, -10,
   -10, 0, 5, 0, 0, 0, 0, -10,
   -20, -10, -10, -5, -5, -10, -10, -20]

def KING_PST_MG : List Int :=
  [-30, -40, -40, -50, -50, -40, -40, -30,
   -30, -40, -40, -50, -50, -40, -40, -30,
   -30, -40, -40, -50, -50, -40, -40, -30,
   -30, -40, -40, -50, -50, -40, -40, -30,
   -20, -30, -30, -40, -40, -30, -30, -20,
   -10, -20, -20, -20, -20, -20, -20, -10,
   20, 20, 0, 0, 0, 0, 20, 20,
   20, 30, 10, 0, 0, 10, 30, 20]

def KING_PST_EG : List Int :=
  [-50, -40, -30, -20, -20, -30, -40, -50,
   -30, -20, -10, 0, 0, -10, -20, -30,
   -30, -10, 20, 30, 30, 20, -10, -30,
   -30, -10, 30, 40, 40, 30, -10, -30,
   -30, -10, 30, 40, 40, 30, -10, -30,
   -30, -10, 20, 30, 30, 20, -10, -30,
   -30, -30, 0, 0, 0, 0, -30, -30,
   -50, -30, -30, -30, -30, -30, -30, -50]

def PST_TABLES (t : PieceType) : List Int :=
  match t with
  | PieceType.pawn => PAWN_PST
  | PieceType.knight => KNIGHT_PST
  | PieceType.bishop => BISHOP_PST
  | PieceType.rook => ROOK_PST
  | PieceType.queen => QUEEN_PST
  | PieceType.king => KING_PST_MG

/-- `getPstValue`: table lookup with vertical mirroring for Black. -/
def getPstValue (piece : Piece) (square : Nat) (isEndg : Bool) : Int :=
  let table :=
    if piece.type == PieceType.king && isEndg then KING_PST_EG else PST_TABLES piece.type
  let adjustedSquare :=
    if piece.color == Color.white then square else (7 - square / 8) * 8 + square % 8
  table.getD adjustedSquare 0

/-- `isEndgame`: no queens, or at most 2 queens and at most 2 rooks, bishops
and knights together. -/
def isEndgame (board : Board) : Bool :=
  let queenCount := board.countP fun sq => (sq.map Piece.type) == some PieceType.queen
  let minorMajorCount := board.countP fun sq =>
    (sq.map Piece.type) == some PieceType.rook
    || (sq.map Piece.type) == some PieceType.bishop
    || (sq.map Piece.type) == some PieceType.knight
  queenCount == 0 || (queenCount ≤ 2 && minorMajorCount ≤ 2)

def evaluateMaterial (board : Board) : Int :=
  board.foldl
    (fun score sq =>
      match sq with
      | none => score
      | some piece =>
        score + (if piece.color == Color.white then PIECE_VALUES piece.type
                 else -PIECE_VALUES piece.type))
    (0 : Int)

def evaluatePositioning (board : Board) : Int :=
  let endgame := isEndgame board
  (List.range 64).foldl
    (fun score square =>
      match getPiece board square with
      | none => score
      | some piece =>
        let pstValue := getPstValue piece square endgame
        score + (if piece.color == Color.white then pstValue else -pstValue))
    (0 : Int)

def evaluateMobility (position : Position) : Int :=
  let currentMoves := generateLegalMoves position
  let opponentPosition : Position :=
    { position with sideToMove := oppositeColor position.sideToMove }
  let opponentMoves := generateLegalMoves opponentPosition
  let mobilityDiff : Int := (currentMoves.length : Int) - (opponentMoves.length : Int)
  if position.sideToMove == Color.white then mobilityDiff * 5 else -mobilityDiff * 5

/-- The per-color body of the `evaluateKingSafety` loop.  The TS code calls
`findKing` which throws when the king is missing; that (unreachable for
well-formed positions) case contributes 0 here. -/
def kingSafetyFor (board : Board) (color : Color) : Int :=
  match findKing board color with
  | none => 0
  | some kingSquare =>
    let kingFile : Int := (kingSquare : Int).tmod 8
    let kingRank : Int := (kingSquare : Int).fdiv 8
    let enemyColor := if color == Color.white then Color.black else Color.white
    let castledScore : Int :=
      if !isEndgame board then
        let isCastled :=
          (kingFile ≥ 6 || kingFile ≤ 1)
          && kingRank == (if color == Color.white then (0 : Int) else 7)
        let s1 : Int := if isCastled then (if color == Color.white then 30 else -30) else 0
        let inCenter :=
          kingFile ≥ 3 && kingFile ≤ 4
          && kingRank == (if color == Color.white then (0 : Int) else 7)
        let s2 : Int := if inCenter then (if color == Color.white then -20 else 20) else 0
        s1 + s2
      else 0
    let attacksNearKing : Int :=
      ([-1, 0, 1] : List Int).foldl
        (fun acc df =>
          ([-1, 0, 1] : List Int).foldl
            (fun acc2 dr =>
              let nearFile := kingFile + df
              let nearRank := kingRank + dr
              if nearFile < 0 || nearFile > 7 || nearRank < 0 || nearRank > 7 then acc2
              else if isSquareAttacked board (toSquareIndex nearFile nearRank).toNat enemyColor
              then acc2 + 1
              else acc2)
            acc)
        0
    castledScore
      + (if color == Color.white then -attacksNearKing * 10 else attacksNearKing * 10)

def evaluateKingSafety (position : Position) : Int :=
  kingSafetyFor position.board Color.white + kingSafetyFor position.board Color.black

def CENTER_SQUARES : List Nat := [27, 28, 35, 36]

def EXTENDED_CENTER : List Nat := [18, 19, 20, 21, 26, 29, 34, 37, 42, 43, 44, 45]

def evaluateCenterControl (position : Position) : Int :=
  let board := position.board
  let centerScore :=
    CENTER_SQUARES.foldl
      (fun score square =>
        let s1 :=
          match getPiece board square with
          | some piece =>
            if piece.type != PieceType.king then
              score + (if piece.color == Color.white then 15 else -15)
            else score
          | none => score
        let s2 := if isSquareAttacked board square Color.white then s1 + 5 else s1
        if isSquareAttacked board square Color.black then s2 - 5 else s2)
      (0 : Int)
  EXTENDED_CENTER.foldl
    (fun score square =>
      match getPiece board square with
      | some piece =>
        if piece.type != PieceType.king && piece.type != PieceType.pawn then
          score + (if piece.color == Color.white then 5 else -5)
        else score
      | none => score)
    centerScore

/-- Files (0-7) of the pawns of one color, in square order. -/
def pawnFiles (board : Board) (color : Color) : List Nat :=
  (List.range 64).filterMap fun square =>
    match getPiece board square with
    | some piece =>
      if piece.type == PieceType.pawn && piece.color == color then some (square % 8)
      else none
    | none => none

def evaluatePawnStructure (board : Board) : Int :=
  let whitePawnFiles := pawnFiles board Color.white
  let blackPawnFiles := pawnFiles board Color.black
  let doubled :=
    (List.range 8).foldl
      (fun score file =>
        let whiteOnFile := (whitePawnFiles.filter (fun f => f == file)).length
        let blackOnFile := (blackPawnFiles.filter (fun f => f == file)).length
        let s1 := if whiteOnFile > 1 then score - ((whiteOnFile : Int) - 1) * 20 else score
        if blackOnFile > 1 then s1 + ((blackOnFile : Int) - 1) * 20 else s1)
      (0 : Int)
  let isoWhite :=
    whitePawnFiles.foldl
      (fun score file =>
        if whitePawnFiles.any (fun f => f + 1 == file || f == file + 1) then score
        else score - 15)
      doubled
  blackPawnFiles.foldl
    (fun score file =>
      if blackPawnFiles.any (fun f => f + 1 == file || f == file + 1) then score
      else score + 15)
    isoWhite

def evaluatePieceActivity (board : Board) : Int :=
  let whiteBishops := board.countP fun sq => sq == some ⟨PieceType.bishop, Color.white⟩
  let blackBishops := board.countP fun sq => sq == some ⟨PieceType.bishop, Color.black⟩
  let s1 : Int := if whiteBishops ≥ 2 then 30 else 0
  let s2 : Int := if blackBishops ≥ 2 then s1 - 30 else s1
  (List.range 8).foldl
    (fun score file =>
      let fileSquares := (List.range 8).map fun rank => getPiece board (rank * 8 + file)
      let hasPawn := fileSquares.any fun sq => (sq.map Piece.type) == some PieceType.pawn
      let whiteRookOnFile := fileSquares.any fun sq => sq == some ⟨PieceType.rook, Color.white⟩
      let blackRookOnFile := fileSquares.any fun sq => sq == some ⟨PieceType.rook, Color.black⟩
      if !hasPawn then
        let t1 := if whiteRookOnFile then score + 20 else score
        if blackRookOnFile then t1 - 20 else t1
      else score)
    s2

def MATE_SCORE : Int := 100000

def DRAW_SCORE : Int := 0

/-- `isInCheckSimple` from `evaluate.ts` (inlined check detection). -/
def isInCheckSimple (position : Position) : Bool :=
  match findKing position.board position.sideToMove with
  | some kingSquare =>
    let enemyColor :=
      if position.sideToMove == Color.white then Color.black else Color.white
    isSquareAttacked position.board kingSquare enemyColor
  | none => false

/-- `evaluate`: checkmate/stalemate short-circuit, otherwise the sum of the
seven components. -/
def evaluate (position : Position) : Int :=
  let legalMoves := generateLegalMoves position
  if legalMoves.length = 0 then
    if !isInCheckSimple position then DRAW_SCORE
    else if position.sideToMove == Color.white then -MATE_SCORE else MATE_SCORE
  else
    evaluateMaterial position.board
    + evaluatePositioning position.board
    + evaluateMobility position
    + evaluateKingSafety position
    + evaluateCenterControl position
    + evaluatePawnStructure position.board
    + evaluatePieceActivity position.board

structure EvaluationBreakdown where
  material : Int
  mobility : Int
  kingSafety : Int
  centerControl : Int
  pawnStructure : Int
  pieceActivity : Int
deriving DecidableEq, Repr

def getEvaluationBreakdown (position : Position) : EvaluationBreakdown :=
  { material := evaluateMaterial position.board,
    mobility := evaluateMobility position,
    kingSafety := evaluateKingSafety position,
    centerControl := evaluateCenterControl position,
    pawnStructure := evaluatePawnStructure position.board,
    pieceActivity := evaluatePieceActivity position.board + evaluatePositioning position.board }

/-- Checkmate sample: white king a1, black queen b2, black king c2, White to
move and mated. -/
def samplePosMated : Position :=
  { board :=
      (((List.replicate 64 (none : Option Piece)).set 0
          (some ⟨PieceType.king, Color.white⟩)).set 9
          (some ⟨PieceType.queen, Color.black⟩)).set 10
          (some ⟨PieceType.king, Color.black⟩),
    sideToMove := Color.white,
    castlingRights := ⟨false, false, false, false⟩,
    enPassantSquare := none,
    halfmoveClock := 0,
    fullmoveNumber := 1 }

/-- Stalemate sample: white king a1, black queen c2, black king h8, White to
move and stalemated. -/
def samplePosStale : Position :=
  { board :=
      (((List.replicate 64 (none : Option Piece)).set 0
          (some ⟨PieceType.king, Color.white⟩)).set 10
          (some ⟨PieceType.queen, Color.black⟩)).set 63
          (some ⟨PieceType.king, Color.black⟩),
    sideToMove := Color.white,
    castlingRights := ⟨false, false, false, false⟩,
    enPassantSquare := none,
    halfmoveClock := 0,
    fullmoveNumber := 1 }

/-! ## Move ordering (`src/engine/search/ordering.ts`) -/

/-- `MVV_LVA_VICTIM` (higher = more valuable victim). -/
def MVV_LVA_VICTIM (t : PieceType) : Int :=
  match t with
  | PieceType.pawn => 1
  | PieceType.knight => 2
  | PieceType.bishop => 3
  | PieceType.rook => 4
  | PieceType.queen => 5
  | PieceType.king => 6

/-- `MVV_LVA_ATTACKER` (higher = less valuable attacker). -/
def MVV_LVA_ATTACKER (t : PieceType) : Int :=
  match t with
  | PieceType.king => 1
  | PieceType.queen => 2
  | PieceType.rook => 3
  | PieceType.bishop => 4
  | PieceType.knight => 5
  | PieceType.pawn => 6

def getMvvLvaScore (move : Move) : Int :=
  match move.captured with
  | none => 0
  | some captured => MVV_LVA_VICTIM captured.type * 10 + MVV_LVA_ATTACKER move.piece.type

def MAX_KILLER_MOVES : Nat := 2

/-- `KillerMoves`: per-ply lists of up to two quiet moves. -/
structure KillerMoves where
  killers : List (List Move)
  maxPly : Nat
deriving DecidableEq, Repr

def KillerMoves.new (maxPly : Nat) : KillerMoves :=
  { killers := List.replicate maxPly [], maxPly := maxPly }

def movesEqualKiller (a b : Move) : Bool :=
  a.fromSq == b.fromSq && a.toSq == b.toSq && a.promotion == b.promotion

/-- `KillerMoves.add`: ignore captures and duplicates, unshift, cap at 2. -/
def KillerMoves.add (km : KillerMoves) (ply : Nat) (move : Move) : KillerMoves :=
  if ply ≥ km.maxPly then km
  else if move.captured.isSome then km
  else
    let plyKillers := km.killers.getD ply []
    if plyKillers.any fun killer => movesEqualKiller killer move then km
    else { km with killers := km.killers.set ply ((move :: plyKillers).take MAX_KILLER_MOVES) }

def KillerMoves.get (km : KillerMoves) (ply : Nat) : List Move :=
  if ply ≥ km.maxPly then [] else km.killers.getD ply []

def KillerMoves.clear (km : KillerMoves) : KillerMoves :=
  { km with killers := List.replicate km.killers.length [] }

/-- History-table key `colorpieceto` (the TS string key, as a triple). -/
abbrev HistKey := Color × PieceType × Nat

/-- `HistoryTable`: insertion-ordered association list mirroring the TS
`Map`, plus the cached `maxValue`. -/
structure HistoryTable where
  table : List (HistKey × Nat)
  maxValue : Nat
deriving DecidableEq, Repr

def HistoryTable.new : HistoryTable := { table := [], maxValue := 0 }

def histGetKey (move : Move) : HistKey := (move.piece.color, move.piece.type, move.toSq)

def histFind (table : List (HistKey × Nat)) (key : HistKey) : Option Nat :=
  match table.find? fun kv => kv.1 == key with
  | some kv => some kv.2
  | none => none

/-- JS `Map.set`: replace in place when the key exists, append otherwise. -/
def histSet (table : List (HistKey × Nat)) (key : HistKey) (v : Nat) :
    List (HistKey × Nat) :=
  if (table.find? fun kv => kv.1 == key).isSome then
    table.map fun kv => if kv.1 == key then (kv.1, v) else kv
  else table ++ [(key, v)]

/-- `HistoryTable.age`: halve every entry and the cached max. -/
def HistoryTable.age (ht : HistoryTable) : HistoryTable :=
  { table := ht.table.map fun kv => (kv.1, kv.2 / 2), maxValue := ht.maxValue / 2 }

/-- `HistoryTable.addCutoff`: add `depth * depth`, age when the cached max
exceeds 10000. -/
def HistoryTable.addCutoff (ht : HistoryTable) (move : Move) (depth : Nat) : HistoryTable :=
  let key := histGetKey move
  let current := (histFind ht.table key).getD 0
  let bonus := depth * depth
  let newValue := current + bonus
  let ht1 : HistoryTable :=
    { table := histSet ht.table key newValue, maxValue := max ht.maxValue newValue }
  if ht1.maxValue > 10000 then ht1.age else ht1

def HistoryTable.getScore (ht : HistoryTable) (move : Move) : Nat :=
  (histFind ht.table (histGetKey move)).getD 0

def HistoryTable.clear (_ : HistoryTable) : HistoryTable := HistoryTable.new

/-- `SCORE` constants. -/
def SCORE_HASH_MOVE : Int := 1000000
def SCORE_WINNING_CAPTURE : Int := 100000
def SCORE_EQUAL_CAPTURE : Int := 50000
def SCORE_KILLER_1 : Int := 40000
def SCORE_KILLER_2 : Int := 39000
def SCORE_LOSING_CAPTURE : Int := 30000
def SCORE_HISTORY_BASE : Int := 0
def SCORE_PROMOTION : Int := 80000

/-- The indexed `for` loop over the killers of one ply in `scoreMove`. -/
def killerScoreLoop (move : Move) : List Move → Nat → Option Int
  | [], _ => none
  | killer :: rest, i =>
    if move.fromSq == killer.fromSq && move.toSq == killer.toSq then
      some (if i == 0 then SCORE_KILLER_1 else SCORE_KILLER_2)
    else killerScoreLoop move rest (i + 1)

/-- The hash-move test of `scoreMove` (match by from/to). -/
def isHashMove (move : Move) (hashMove : Option Move) : Bool :=
  match hashMove with
  | some hm => move.fromSq == hm.fromSq && move.toSq == hm.toSq
  | none => false

/-- `scoreMove`. -/
def scoreMove (move : Move) (hashMove : Option Move) (killerMoves : KillerMoves)
    (historyTable : HistoryTable) (ply : Nat) : Int :=
  if isHashMove move hashMove then SCORE_HASH_MOVE
  else
    match move.promotion with
    | some promotion => SCORE_PROMOTION + PIECE_VALUES promotion
    | none =>
      match move.captured with
      | some captured =>
        let mvvLva := getMvvLvaScore move
        let victimValue := PIECE_VALUES captured.type
        let attackerValue := PIECE_VALUES move.piece.type
        if victimValue > attackerValue then SCORE_WINNING_CAPTURE + mvvLva
        else if victimValue == attackerValue then SCORE_EQUAL_CAPTURE + mvvLva
        else SCORE_LOSING_CAPTURE + mvvLva
      | none =>
        match killerScoreLoop move (killerMoves.get ply) 0 with
        | some s => s
        | none => SCORE_HISTORY_BASE + historyTable.getScore move

/-- Stable descending insertion by score: the unique stable descending
order, matching the stable JS `Array.prototype.sort` with comparator
`(a, b) => b.score - a.score`. -/
def insertByScoreDesc (x : Move × Int) : List (Move × Int) → List (Move × Int)
  | [] => [x]
  | y :: rest => if y.2 ≤ x.2 then x :: y :: rest else y :: insertByScoreDesc x rest

def sortByScoreDesc (l : List (Move × Int)) : List (Move × Int) :=
  l.foldr insertByScoreDesc []

/-- `orderMoves` (returns the reordered list instead of mutating). -/
def orderMoves (moves : List Move) (hashMove : Option Move) (killerMoves : KillerMoves)
    (historyTable : HistoryTable) (ply : Nat) : List Move :=
  let scored := moves.map fun move =>
    (move, scoreMove move hashMove killerMoves historyTable ply)
  (sortByScoreDesc scored).map fun ms => ms.1

/-- `orderCaptures`: sort by MVV-LVA descending. -/
def orderCaptures (moves : List Move) : List Move :=
  let scored := moves.map fun m => (m, if m.captured.isSome then getMvvLvaScore m else 0)
  (sortByScoreDesc scored).map fun ms => ms.1

/-- History states reachable from the empty table by `addCutoff` updates
whose depths are bounded by `D`. -/
inductive HistoryReachableLe (D : Nat) : HistoryTable → Prop where
  | empty : HistoryReachableLe D HistoryTable.new
  | step (ht : HistoryTable) (move : Move) (depth : Nat) :
      HistoryReachableLe D ht → depth ≤ D →
      HistoryReachableLe D (ht.addCutoff move depth)

/-- A sample quiet knight move used in the C8 counterexample. -/
def sampleQuietMove : Move :=
  { fromSq := 1, toSq := 18, piece := ⟨PieceType.knight, Color.white⟩,
    moveType := MoveType.normal }

/-! ## Transposition table (`src/engine/search/transposition.ts`) -/

/-- One hex digit of JS `BigInt.prototype.toString(16)` (lowercase). -/
def hexDigitChar (d : Nat) : Char :=
  if d < 10 then Char.ofNat (48 + d) else Char.ofNat (87 + d)

/-- Hex representation with structural fuel, as for `natToCharsGo`. -/
def natToHexGo : Nat → Nat → List Char
  | 0, _ => []
  | fuel + 1, n =>
    if n < 16 then [hexDigitChar n]
    else natToHexGo fuel (n / 16) ++ [hexDigitChar (n % 16)]

/-- `hashToKey`: `hash.toString(16)`. -/
def hashToKey (hash : Nat) : List Char := natToHexGo (hash + 1) hash

inductive NodeType where
  | exact
  | lowerBound
  | upperBound
deriving DecidableEq, Repr

structure TranspositionEntry where
  hash : Nat
  depth : Nat
  evaluation : Int
  nodeType : NodeType
  bestMove : Option Move
deriving DecidableEq, Repr

/-- `TranspositionTable`: the JS `Map` is an insertion-ordered association
list from hex key to entry, plus the statistics counters. -/
structure TranspositionTable where
  table : List (List Char × TranspositionEntry)
  maxSize : Nat
  hits : Nat
  misses : Nat
  collisions : Nat
deriving DecidableEq, Repr

/-- Constructor with capacity in MB (about 100 bytes per entry). -/
def TranspositionTable.new (maxSizeMB : Nat) : TranspositionTable :=
  { table := [], maxSize := maxSizeMB * 1024 * 1024 / 100,
    hits := 0, misses := 0, collisions := 0 }

/-- JS `Map.set` on the association list. -/
def ttSet (table : List (List Char × TranspositionEntry)) (key : List Char)
    (e : TranspositionEntry) : List (List Char × TranspositionEntry) :=
  if (table.find? fun kv => kv.1 == key).isSome then
    table.map fun kv => if kv.1 == key then (kv.1, e) else kv
  else table ++ [(key, e)]

/-- `TranspositionTable.store`: keep deeper existing entries (counting a
collision), evict the oldest tenth when full, then set. -/
def TranspositionTable.store (t : TranspositionTable) (hash : Nat) (depth : Nat)
    (evaluation : Int) (nodeType : NodeType) (bestMove : Option Move) :
    TranspositionTable :=
  let key := hashToKey hash
  let keep : Bool :=
    match t.table.find? fun kv => kv.1 == key with
    | some kv => decide (kv.2.depth > depth)
    | none => false
  cond keep { t with collisions := t.collisions + 1 }
    (let table1 :=
      if t.table.length ≥ t.maxSize then t.table.drop (t.maxSize / 10) else t.table
    let entry : TranspositionEntry :=
      ⟨hash, depth, evaluation, nodeType, bestMove⟩
    { t with table := ttSet table1 key entry })

/-- `TranspositionTable.probe`: returns the entry (if the key is present and
the stored hash matches) together with the updated counters. -/
def TranspositionTable.probe (t : TranspositionTable) (hash : Nat) :
    Option TranspositionEntry × TranspositionTable :=
  let key := hashToKey hash
  match t.table.find? fun kv => kv.1 == key with
  | none => (none, { t with misses := t.misses + 1 })
  | some kv =>
    if kv.2.hash ≠ hash then (none, { t with collisions := t.collisions + 1 })
    else (some kv.2, { t with hits := t.hits + 1 })

def TranspositionTable.clear (t : TranspositionTable) : TranspositionTable :=
  { t with table := [], hits := 0, misses := 0, collisions := 0 }

/-- Transposition-table states reachable through the public operations. -/
inductive TTReachable : TranspositionTable → Prop where
  | new (maxSizeMB : Nat) : TTReachable (TranspositionTable.new maxSizeMB)
  | store (t : TranspositionTable) (hash depth : Nat) (evaluation : Int)
      (nodeType : NodeType) (bestMove : Option Move) :
      TTReachable t → TTReachable (t.store hash depth evaluation nodeType bestMove)
  | probe (t : TranspositionTable) (hash : Nat) :
      TTReachable t → TTReachable (t.probe hash).2
  | clear (t : TranspositionTable) : TTReachable t → TTReachable t.clear

/-- Value of one hex digit character (inverse of `hexDigitChar`). -/
def hexDigitVal (c : Char) : Nat :=
  if c.toNat ≥ 97 then c.toNat - 87 else c.toNat - 48

/-- Numeric value of a hex string (inverse of `hashToKey`). -/
def hexVal (l : List Char) : Nat :=
  l.foldl (fun a c => a * 16 + hexDigitVal c) 0

/-- The transposition-table invariant: every stored entry sits under the hex
key of its own hash. -/
def TTInv (t : TranspositionTable) : Prop :=
  ∀ kv ∈ t.table, kv.1 = hashToKey kv.2.hash

/-! ## Zobrist hashing (`src/engine/search/zobrist.ts`)

The seeded 64-bit LCG and the key tables, generated in the TS order:
768 piece-square values, one black-to-move value, 4 castling values, 8
en-passant-file values. -/

def lcgNext (state : Nat) : Nat :=
  (6364136223846793005 * state + 1442695040888963407) % (2 ^ 64)

/-- LCG state after `n` steps from seed 12345; the `n`-th generated random
value (1-based) is `lcgState n`. -/
def lcgState : Nat → Nat
  | 0 => 12345
  | n + 1 => lcgNext (lcgState n)

def PIECE_INDEX (t : PieceType) : Nat :=
  match t with
  | PieceType.pawn => 0
  | PieceType.knight => 1
  | PieceType.bishop => 2
  | PieceType.rook => 3
  | PieceType.queen => 4
  | PieceType.king => 5

def COLOR_OFFSET (c : Color) : Nat :=
  match c with
  | Color.white => 0
  | Color.black => 6

def getPieceIndex (t : PieceType) (c : Color) : Nat := PIECE_INDEX t + COLOR_OFFSET c

/-- `zobristKeys.pieceSquare[square][pieceIdx]`. -/
def zobristPieceSquare (square pieceIdx : Nat) : Nat := lcgState (square * 12 + pieceIdx + 1)

/-- `zobristKeys.blackToMove`. -/
def zobristBlackToMove : Nat := lcgState 769

/-- `zobristKeys.castling[i]`. -/
def zobristCastling (i : Nat) : Nat := lcgState (770 + i)

/-- `zobristKeys.enPassant[file]`. -/
def zobristEnPassant (file : Nat) : Nat := lcgState (774 + file)

/-- `computeHash`. -/
def computeHash (position : Position) : Nat :=
  let h0 :=
    (List.range 64).foldl
      (fun hash square =>
        match getPiece position.board square with
        | none => hash
        | some piece =>
          hash ^^^ zobristPieceSquare square (getPieceIndex piece.type piece.color))
      0
  let h1 := if position.sideToMove == Color.black then h0 ^^^ zobristBlackToMove else h0
  let h2 := if position.castlingRights.whiteKingside then h1 ^^^ zobristCastling 0 else h1
  let h3 := if position.castlingRights.whiteQueenside then h2 ^^^ zobristCastling 1 else h2
  let h4 := if position.castlingRights.blackKingside then h3 ^^^ zobristCastling 2 else h3
  let h5 := if position.castlingRights.blackQueenside then h4 ^^^ zobristCastling 3 else h4
  match position.enPassantSquare with
  | some sq => h5 ^^^ zobristEnPassant (sq % 8)
  | none => h5

/-! ## Search (`src/engine/search/search.ts`)

The mutable `SearchState` is threaded explicitly.  Real time is abstracted:
`elapsedAt n` is the elapsed milliseconds observed when the time probe fires
with `nodesSearched = n` (the TS code reads `Date.now()` only inside
`shouldStopSearch`).  JS `-Infinity`/`Infinity` are modelled by `-INF`/`INF`
with `INF = 10^9`: the sentinels are only negated and compared, and every
real score is far smaller in magnitude, so the arithmetic agrees. -/

def INF : Int := 1000000000

structure SearchState where
  nodesSearched : Nat
  shouldStop : Bool
  killerMoves : KillerMoves
  historyTable : HistoryTable
  transpositionTable : TranspositionTable
deriving DecidableEq, Repr

/-- `shouldStopSearch` as a pure function of the state fields it reads and
the elapsed time it would observe: returns (result, new shouldStop flag). -/
def shouldStopSearch (nodesSearched : Nat) (shouldStop : Bool) (maxTimeMs : Nat)
    (elapsed : Nat) : Bool × Bool :=
  if shouldStop then (true, true)
  else if nodesSearched % 1000 == 0 then
    if elapsed ≥ maxTimeMs then (true, true) else (false, false)
  else (false, false)

def stopCheck (st : SearchState) (maxTimeMs : Nat) (elapsedAt : Nat → Nat) :
    Bool × SearchState :=
  let r := shouldStopSearch st.nodesSearched st.shouldStop maxTimeMs
    (elapsedAt st.nodesSearched)
  (r.1, { st with shouldStop := r.2 })

/-- `quiescence`, with structural fuel bounding the capture-chain depth:
each recursion level removes one piece from a 64-square board, so fuel 65 at
the entry call is never exhausted. -/
def quiescence (elapsedAt : Nat → Nat) (maxTimeMs : Nat) :
    Nat → Position → Int → Int → SearchState → Int × SearchState
  | 0, _, alpha, _, st => (alpha, st)
  | fuel + 1, position, alpha0, beta, st0 =>
    let r := stopCheck st0 maxTimeMs elapsedAt
    if r.1 then (0, r.2)
    else
      let st := { r.2 with nodesSearched := r.2.nodesSearched + 1 }
      let standPat := evaluate position
      let score := if position.sideToMove == Color.white then standPat else -standPat
      if score ≥ beta then (beta, st)
      else
        let alpha := if score > alpha0 then score else alpha0
        let legalMoves := generateLegalMoves position
        let captures := legalMoves.filter fun m => m.captured.isSome
        if captures.length = 0 then (alpha, st)
        else
          let captures := orderCaptures captures
          let init : Int × SearchState × Option Int := (alpha, st, none)
          let res := captures.foldl
            (fun acc move =>
              match acc.2.2 with
              | some _ => acc
              | none =>
                let newPosition := makeMove position move
                let q := quiescence elapsedAt maxTimeMs fuel newPosition
                  (-beta) (-acc.1) acc.2.1
                let moveScore := -q.1
                if moveScore ≥ beta then (acc.1, q.2, some beta)
                else if moveScore > acc.1 then (moveScore, q.2, none)
                else (acc.1, q.2, none))
            init
          match res.2.2 with
          | some b => (b, res.2.1)
          | none => (res.1, res.2.1)

/-- The accumulator of the move loop in `alphaBeta`:
(bestScore, bestMove, alpha, nodeType, localPv, pv, state, hard-stop result,
loop broken). -/
structure ABLoopAcc where
  bestScore : Int
  bestMove : Option Move
  alpha : Int
  nodeType : NodeType
  localPv : List Move
  pv : List Move
  st : SearchState
  stopped : Bool
  broke : Bool

/-- `alphaBeta` (negamax).  Returns (score, pv written for this node,
state).  Structural recursion on `depth`; leaf calls enter `quiescence` with
fuel 65 (see there). -/
def alphaBeta (elapsedAt : Nat → Nat) (maxTimeMs : Nat) :
    Nat → Position → Int → Int → Nat → SearchState → Int × List Move × SearchState
  | depth, position, alpha, beta, ply, st0 =>
    let r := stopCheck st0 maxTimeMs elapsedAt
    if r.1 then (0, [], r.2)
    else
      let st := r.2
      let hash := computeHash position
      let pr := st.transpositionTable.probe hash
      let ttEntry := pr.1
      let st := { st with transpositionTable := pr.2 }
      let ttHit : Option Int :=
        match ttEntry with
        | some e =>
          if e.depth ≥ depth then
            match e.nodeType with
            | NodeType.exact => some e.evaluation
            | NodeType.lowerBound => if e.evaluation ≥ beta then some beta else none
            | NodeType.upperBound => if e.evaluation ≤ alpha then some alpha else none
          else none
        | none => none
      match ttHit with
      | some v => (v, [], st)
      | none =>
        match depth with
        | 0 =>
          let q := quiescence elapsedAt maxTimeMs 65 position alpha beta st
          (q.1, [], q.2)
        | d + 1 =>
          let st := { st with nodesSearched := st.nodesSearched + 1 }
          let legalMoves := generateLegalMoves position
          if legalMoves.length = 0 then
            if isInCheck position.board position.sideToMove then
              (-MATE_SCORE + ply, [], st)
            else (DRAW_SCORE, [], st)
          else if position.halfmoveClock ≥ 100 then (DRAW_SCORE, [], st)
          else
            let hashMove : Option Move :=
              match ttEntry with
              | some e => e.bestMove
              | none => none
            let moves := orderMoves legalMoves hashMove st.killerMoves st.historyTable ply
            let init : ABLoopAcc :=
              { bestScore := -INF, bestMove := none, alpha := alpha,
                nodeType := NodeType.upperBound, localPv := [], pv := [], st := st,
                stopped := false, broke := false }
            let acc := moves.foldl
              (fun acc move =>
                if acc.stopped || acc.broke then acc
                else
                  let newPosition := makeMove position move
                  let rec1 := alphaBeta elapsedAt maxTimeMs d newPosition
                    (-beta) (-acc.alpha) (ply + 1) acc.st
                  let score := -rec1.1
                  let childPv := rec1.2.1
                  let st1 := rec1.2.2
                  if st1.shouldStop then { acc with st := st1, stopped := true }
                  else
                    let acc1 :=
                      if score > acc.bestScore then
                        { acc with
                          bestScore := score
                          bestMove := some move
                          localPv := move :: childPv
                          st := st1 }
                      else { acc with st := st1 }
                    let acc2 :=
                      if score > acc1.alpha then
                        { acc1 with
                          alpha := score
                          nodeType := NodeType.exact
                          pv := acc1.localPv }
                      else acc1
                    if acc2.alpha ≥ beta then
                      let acc3 := { acc2 with nodeType := NodeType.lowerBound }
                      if !move.captured.isSome then
                        { acc3 with
                          st := { acc3.st with
                            killerMoves := acc3.st.killerMoves.add ply move,
                            historyTable := acc3.st.historyTable.addCutoff move depth },
                          broke := true }
                      else { acc3 with broke := true }
                    else acc2)
              init
            if acc.stopped then (0, acc.pv, acc.st)
            else
              let stF :=
                match acc.bestMove with
                | some bm =>
                  let tt := acc.st.transpositionTable.store hash depth acc.bestScore
                    acc.nodeType (some bm)
                  { acc.st with transpositionTable := tt }
                | none => acc.st
              (acc.bestScore, acc.pv, stF)

/-- `SearchOptions`. -/
inductive Difficulty where
  | beginner
  | easy
  | medium
  | hard
  | expert
deriving DecidableEq, Repr

inductive PlayStyle where
  | aggressive
  | defensive
  | balanced
deriving DecidableEq, Repr

structure SearchOptions where
  maxDepth : Nat
  maxTimeMs : Nat
  difficulty : Difficulty
  playStyle : PlayStyle
  mistakeProbability : Rat
deriving DecidableEq, Repr

structure SearchResult where
  bestMove : Option Move
  evaluation : Int
  evaluationBreakdown : EvaluationBreakdown
  principalVariation : List Move
  depth : Nat
  nodesSearched : Nat
  timeMs : Nat
  explanation : List String
deriving DecidableEq, Repr

/-- The engine-owned tables that persist across `search` calls (the module
globals `killerMoves`, `historyTable`, `transpositionTable`). -/
structure EngineState where
  killerMoves : KillerMoves
  historyTable : HistoryTable
  transpositionTable : TranspositionTable
deriving DecidableEq, Repr

def EngineState.initial : EngineState :=
  { killerMoves := KillerMoves.new 64, historyTable := HistoryTable.new,
    transpositionTable := TranspositionTable.new 64 }

def pieceTypeName (t : PieceType) : String :=
  match t with
  | PieceType.pawn => "p"
  | PieceType.knight => "n"
  | PieceType.bishop => "b"
  | PieceType.rook => "r"
  | PieceType.queen => "q"
  | PieceType.king => "k"

/-- Rendering of a possibly negative integer, as JS template interpolation. -/
def intToChars (m : Int) : List Char :=
  if m < 0 then '-' :: natToChars m.natAbs else natToChars m.toNat

/-- `Math.abs(material / 100).toFixed(1)` for integer centipawns.  The JS
value divides in binary floating point before rounding; every centipawn
amount below 2^49 is exact in a double, and ties (`xx5` centipawns) are
modelled as rounding away from zero. -/
def pawnsString (material : Int) : String :=
  let tenths := (material.natAbs + 5) / 10
  String.mk (natToChars (tenths / 10)) ++ "." ++ String.mk (natToChars (tenths % 10))

/-- `generateExplanation`. -/
def generateExplanation (move : Option Move) (breakdown : EvaluationBreakdown)
    (evaluation : Int) : List String :=
  match move with
  | none => ["No legal moves available"]
  | some move =>
    let overall :=
      if |evaluation| ≥ MATE_SCORE - 100 then
        let mateIn := (MATE_SCORE - |evaluation| + 1).fdiv 2
        if evaluation > 0 then
          ["Checkmate for White in " ++ String.mk (intToChars mateIn) ++ " moves"]
        else
          ["Checkmate for Black in " ++ String.mk (intToChars mateIn) ++ " moves"]
      else if evaluation > 200 then ["White has a winning advantage"]
      else if evaluation > 50 then ["White has a slight advantage"]
      else if evaluation < -200 then ["Black has a winning advantage"]
      else if evaluation < -50 then ["Black has a slight advantage"]
      else ["Position is roughly equal"]
    let material :=
      if |breakdown.material| > 100 then
        [(if breakdown.material > 0 then "White" else "Black")
          ++ " is up " ++ pawnsString breakdown.material ++ " pawns worth of material"]
      else []
    let kingSafety :=
      if |breakdown.kingSafety| > 30 then
        [(if breakdown.kingSafety > 0 then "White" else "Black") ++ " has better king safety"]
      else []
    let center :=
      if |breakdown.centerControl| > 20 then
        [(if breakdown.centerControl > 0 then "White" else "Black") ++ " controls the center"]
      else []
    let mobility :=
      if |breakdown.mobility| > 30 then
        [(if breakdown.mobility > 0 then "White" else "Black") ++ " has better piece mobility"]
      else []
    let capture :=
      match move.captured with
      | some c => ["Captures " ++ pieceTypeName c.type]
      | none => []
    let promo :=
      match move.promotion with
      | some p => ["Promotes pawn to " ++ pieceTypeName p]
      | none => []
    let castle :=
      if move.moveType == MoveType.castlingKingside
          || move.moveType == MoveType.castlingQueenside then
        ["Castles for king safety"]
      else []
    overall ++ material ++ kingSafety ++ center ++ mobility ++ capture ++ promo ++ castle

/-- The accumulator of the iterative-deepening loop:
(bestMove, bestEvaluation, bestPv, completedDepth, state, done). -/
structure IDAcc where
  bestMove : Option Move
  bestEvaluation : Int
  bestPv : List Move
  completedDepth : Nat
  st : SearchState
  done : Bool

/-- The `for depth = 1..maxDepth` loop of `search`. -/
def searchLoop (elapsedAt : Nat → Nat) (maxTimeMs : Nat) (position : Position) :
    Nat → Nat → IDAcc → IDAcc
  | 0, _, acc => acc
  | k + 1, depth, acc =>
    if acc.done then acc
    else
      let r := alphaBeta elapsedAt maxTimeMs depth position (-INF) INF 0 acc.st
      let score := r.1
      let pv := r.2.1
      let st := r.2.2
      if st.shouldStop && decide (depth > 1) then { acc with st := st, done := true }
      else
        let acc1 :=
          match pv with
          | firstMove :: _ =>
            { acc with
              bestMove := some firstMove
              bestEvaluation :=
                if position.sideToMove == Color.white then score else -score
              bestPv := pv
              completedDepth := depth
              st := st }
          | [] => { acc with st := st }
        if |score| ≥ MATE_SCORE - 100 then { acc1 with done := true }
        else searchLoop elapsedAt maxTimeMs position k (depth + 1) acc1

/-- `search` (iterative deepening).  Takes and returns the engine-owned
tables; killers are cleared per call, the transposition and history tables
persist. -/
def search (elapsedAt : Nat → Nat) (position : Position) (options : SearchOptions)
    (engine : EngineState) : SearchResult × EngineState :=
  let st0 : SearchState :=
    { nodesSearched := 0, shouldStop := false,
      killerMoves := engine.killerMoves.clear,
      historyTable := engine.historyTable,
      transpositionTable := engine.transpositionTable }
  let acc0 : IDAcc :=
    { bestMove := none, bestEvaluation := 0, bestPv := [], completedDepth := 0,
      st := st0, done := false }
  let acc := searchLoop elapsedAt options.maxTimeMs position options.maxDepth 1 acc0
  let fb :=
    match acc.bestMove with
    | some bm => (some bm, acc.bestEvaluation)
    | none =>
      match generateLegalMoves position with
      | m :: _ => (some m, evaluate position)
      | [] => (none, acc.bestEvaluation)
  let breakdown := getEvaluationBreakdown position
  let explanation := generateExplanation fb.1 breakdown fb.2
  let result : SearchResult :=
    { bestMove := fb.1, evaluation := fb.2, evaluationBreakdown := breakdown,
      principalVariation := acc.bestPv, depth := acc.completedDepth,
      nodesSearched := acc.st.nodesSearched, timeMs := elapsedAt acc.st.nodesSearched,
      explanation := explanation }
  (result,
   { killerMoves := acc.st.killerMoves, historyTable := acc.st.historyTable,
     transpositionTable := acc.st.transpositionTable })

/-! ## Sample search inputs -/

/-- A time oracle that always reads 0 elapsed milliseconds: the time budget
is never exhausted, so the search never stops early. -/
def elapsedZero : Nat → Nat := fun _ => 0

/-- Expert-style options: no mistake probability, 5-second budget, depth 1. -/
def sampleSearchOptions : SearchOptions :=
  { maxDepth := 1, maxTimeMs := 5000, difficulty := Difficulty.expert,
    playStyle := PlayStyle.balanced, mistakeProbability := 0 }

/-- The engine tables left behind by searching `samplePosKPk` from
`EngineState.initial` (checked in `search_first_engine_eq`): the root
position's exact depth-1 entry sits in the transposition table. -/
def engineAfterFirstSearch : EngineState :=
  { killerMoves := { killers := List.replicate 64 [], maxPly := 64 },
    historyTable := { table := [], maxValue := 0 },
    transpositionTable :=
      { table := [(['5','c','6','7','c','8','c','9','e','5','6','1','8','b','9','e'],
          { hash := 6658511343552924574, depth := 1, evaluation := 140,
            nodeType := NodeType.exact,
            bestMove := some ⟨0, 9, ⟨PieceType.king, Color.white⟩, MoveType.normal,
              none, none⟩ })],
        maxSize := 671088, hits := 0, misses := 5, collisions := 0 } }

/-! ## AI difficulty layer (`src/engine/ai/difficulty.ts`)

`Math.random()` is abstracted as an oracle `rng : Nat → Rat` giving the
successive values drawn; the draw index is threaded explicitly where the
TS code consumes values from the shared generator. -/

structure DifficultyConfig where
  maxDepth : Nat
  maxTimeMs : Nat
  mistakeProbability : Rat
  blunderProbability : Rat
  randomPoolSize : Nat
  evaluationNoise : Nat
deriving DecidableEq, Repr

def DIFFICULTY_CONFIGS : Difficulty → DifficultyConfig
  | Difficulty.beginner =>
    { maxDepth := 2, maxTimeMs := 500, mistakeProbability := 4/10,
      blunderProbability := 15/100, randomPoolSize := 5, evaluationNoise := 150 }
  | Difficulty.easy =>
    { maxDepth := 3, maxTimeMs := 1000, mistakeProbability := 25/100,
      blunderProbability := 5/100, randomPoolSize := 4, evaluationNoise := 80 }
  | Difficulty.medium =>
    { maxDepth := 4, maxTimeMs := 2000, mistakeProbability := 1/10,
      blunderProbability := 2/100, randomPoolSize := 3, evaluationNoise := 40 }
  | Difficulty.hard =>
    { maxDepth := 5, maxTimeMs := 3000, mistakeProbability := 3/100,
      blunderProbability := 0, randomPoolSize := 2, evaluationNoise := 15 }
  | Difficulty.expert =>
    { maxDepth := 6, maxTimeMs := 5000, mistakeProbability := 0,
      blunderProbability := 0, randomPoolSize := 1, evaluationNoise := 0 }

structure StyleBias where
  aggressiveBonus : Int
  defensiveBonus : Int
  centerBonus : Int
  activityBonus : Int
deriving DecidableEq, Repr

def STYLE_BIASES : PlayStyle → StyleBias
  | PlayStyle.aggressive =>
    { aggressiveBonus := 30, defensiveBonus := -10, centerBonus := 15, activityBonus := 20 }
  | PlayStyle.defensive =>
    { aggressiveBonus := -10, defensiveBonus := 30, centerBonus := 10, activityBonus := 5 }
  | PlayStyle.balanced =>
    { aggressiveBonus := 10, defensiveBonus := 10, centerBonus := 10, activityBonus := 10 }

structure ScoredMove where
  move : Move
  baseScore : Int
  adjustedScore : Rat
deriving DecidableEq, Repr

/-- `applyStyleBias`. -/
def applyStyleBias (move : Move) (baseScore : Int) (style : PlayStyle) : Int :=
  let bias := STYLE_BIASES style
  let adjustment : Int := 0
  let adjustment := if move.captured.isSome then adjustment + bias.aggressiveBonus
    else adjustment
  let toFile := move.toSq % 8
  let toRank := move.toSq / 8
  let adjustment := if 2 ≤ toFile ∧ toFile ≤ 5 ∧ 2 ≤ toRank ∧ toRank ≤ 5 then
    adjustment + bias.centerBonus else adjustment
  let fromRank := move.fromSq / 8
  let startRank : Nat := if move.piece.color == Color.white then 0 else 7
  let adjustment := if fromRank = startRank ∧ toRank ≠ startRank then
    adjustment + bias.activityBonus else adjustment
  baseScore + adjustment

/-- `addEvaluationNoise`; `r` is the `Math.random()` value the call would
consume (it draws none when `noise` is 0). -/
def addEvaluationNoise (score : Rat) (noise : Nat) (r : Rat) : Rat :=
  if noise = 0 then score else score + (r - 1/2) * 2 * noise

/-- Stable ascending insertion by `baseScore`, the effect of the JS
`sort((a, b) => a.baseScore - b.baseScore)`. -/
def insertByBaseAsc (x : ScoredMove) : List ScoredMove → List ScoredMove
  | [] => [x]
  | y :: rest => if x.baseScore ≤ y.baseScore then x :: y :: rest
    else y :: insertByBaseAsc x rest

def sortByBaseAsc (l : List ScoredMove) : List ScoredMove :=
  l.foldr insertByBaseAsc []

/-- Stable descending insertion by `adjustedScore`, the effect of the JS
`sort((a, b) => b.adjustedScore - a.adjustedScore)`. -/
def insertByAdjDesc (x : ScoredMove) : List ScoredMove → List ScoredMove
  | [] => [x]
  | y :: rest => if y.adjustedScore ≤ x.adjustedScore then x :: y :: rest
    else y :: insertByAdjDesc x rest

def sortByAdjDesc (l : List ScoredMove) : List ScoredMove :=
  l.foldr insertByAdjDesc []

/-- `selectBlunderMove`; `r` is the `Math.random()` value it consumes. -/
def selectBlunderMove (position : Position) (moves : List Move) (r : Rat) : Option Move :=
  let scoredMoves := moves.map fun move =>
    let newPosition := makeMove position move
    let score := evaluate newPosition
    ({ move := move,
       baseScore := if position.sideToMove == Color.white then score else -score,
       adjustedScore := (score : Rat) } : ScoredMove)
  let worstMoves := (sortByBaseAsc scoredMoves).take 3
  let randomIndex := Rat.floor (r * worstMoves.length)
  if randomIndex < 0 then none
  else
    match worstMoves[randomIndex.toNat]? with
    | some sm => some sm.move
    | none => none

/-- The weighted-selection loop of `selectMistakeMove`: weights count down
from the pool size, and the first index driving the running value to 0 or
below wins. -/
def mistakePickGo : List ScoredMove → Nat → Rat → Option Move
  | [], _, _ => none
  | m :: rest, w, r =>
    if r - (w : Rat) ≤ 0 then some m.move else mistakePickGo rest (w - 1) (r - (w : Rat))

/-- `selectMistakeMove`; draws one noise value per move starting at index
`k` when `evaluationNoise` is nonzero, then one value for the weighted
pick. -/
def selectMistakeMove (position : Position) (moves : List Move) (bestMove : Option Move)
    (config : DifficultyConfig) (style : PlayStyle) (rng : Nat → Rat) (k : Nat) :
    Option Move :=
  let scoredMoves := moves.enum.map fun im =>
    let newPosition := makeMove position im.2
    let baseScore := if position.sideToMove == Color.white then evaluate newPosition
      else -evaluate newPosition
    let adjustedScore := addEvaluationNoise ((applyStyleBias im.2 baseScore style : Int) : Rat)
      config.evaluationNoise (rng (k + im.1))
    ({ move := im.2, baseScore := baseScore, adjustedScore := adjustedScore } : ScoredMove)
  let candidatePool := ((sortByAdjDesc scoredMoves).drop 1).take config.randomPoolSize
  if candidatePool.length = 0 then none
  else
    let totalWeight := (List.range candidatePool.length).foldl
      (fun sum i => sum + (candidatePool.length - i)) 0
    let draws := if config.evaluationNoise = 0 then 0 else moves.length
    let random := rng (k + draws) * (totalWeight : Rat)
    match mistakePickGo candidatePool candidatePool.length random with
    | some m => some m
    | none =>
      match candidatePool.head? with
      | some sm => some sm.move
      | none => none

/-- `createBlunderResult`. -/
def createBlunderResult (blunderMove : Move) (original : SearchResult) : SearchResult :=
  { original with
    bestMove := some blunderMove
    explanation := original.explanation ++ ["AI made an inaccurate move (human-like error)"] }

/-- `createMistakeResult`. -/
def createMistakeResult (mistakeMove : Move) (original : SearchResult) : SearchResult :=
  { original with
    bestMove := some mistakeMove
    explanation :=
      original.explanation ++ ["AI played a slightly suboptimal move (human-like variation)"] }

/-- `applyHumanBehavior`.  Draw 0 decides the blunder check; the mistake
check uses the next unconsumed index. -/
def applyHumanBehavior (position : Position) (searchResult : SearchResult)
    (config : DifficultyConfig) (playStyle : PlayStyle) (rng : Nat → Rat) : SearchResult :=
  let legalMoves := generateLegalMoves position
  if legalMoves.length ≤ 1 then searchResult
  else
    let blunderStep : Option SearchResult × Nat :=
      if rng 0 < config.blunderProbability then
        match selectBlunderMove position legalMoves (rng 1) with
        | some blunderMove => (some (createBlunderResult blunderMove searchResult), 2)
        | none => (none, 2)
      else (none, 1)
    match blunderStep with
    | (some result, _) => result
    | (none, k) =>
      if rng k < config.mistakeProbability then
        match selectMistakeMove position legalMoves searchResult.bestMove config playStyle
            rng (k + 1) with
        | some mistakeMove => createMistakeResult mistakeMove searchResult
        | none => searchResult
      else searchResult

/-- `calculateAiMove`, threading the engine tables through `search`. -/
def calculateAiMove (elapsedAt : Nat → Nat) (rng : Nat → Rat) (position : Position)
    (difficulty : Difficulty) (playStyle : PlayStyle) (engine : EngineState) :
    SearchResult × EngineState :=
  let config := DIFFICULTY_CONFIGS difficulty
  let searchOptions : SearchOptions :=
    { maxDepth := config.maxDepth, maxTimeMs := config.maxTimeMs,
      difficulty := difficulty, playStyle := playStyle,
      mistakeProbability := config.mistakeProbability }
  let searchResult := search elapsedAt position searchOptions engine
  (applyHumanBehavior position searchResult.1 config playStyle rng, searchResult.2)

/-- A random oracle constantly answering one half. -/
def rngHalf : Nat → Rat := fun _ => 1/2

/-! ## Move notation (`notation.ts`) -/

def pieceTypeUpperChar (t : PieceType) : Char :=
  match t with
  | PieceType.pawn => 'P'
  | PieceType.knight => 'N'
  | PieceType.bishop => 'B'
  | PieceType.rook => 'R'
  | PieceType.queen => 'Q'
  | PieceType.king => 'K'

/-- `findAmbiguousMoves`. -/
def findAmbiguousMoves (position : Position) (move : Move) : List Move :=
  (generateLegalMoves position).filter fun m =>
    m.toSq == move.toSq && m.fromSq != move.fromSq &&
      m.piece.type == move.piece.type && m.piece.color == move.piece.color

/-- `moveToSan` (no check/checkmate marker; those are the callers' job). -/
def moveToSan (position : Position) (move : Move) : List Char :=
  if move.moveType == MoveType.castlingKingside then ['O', '-', 'O']
  else if move.moveType == MoveType.castlingQueenside then ['O', '-', 'O', '-', 'O']
  else
    let san : List Char := []
    let san := if move.piece.type != PieceType.pawn then
      san ++ [pieceTypeUpperChar move.piece.type] else san
    let san :=
      if move.piece.type != PieceType.pawn then
        let ambiguousMoves := findAmbiguousMoves position move
        if ambiguousMoves.length > 0 then
          let fromFile := getFile (move.fromSq : Int)
          let fromRank := getRank (move.fromSq : Int)
          let sameFile := ambiguousMoves.any fun m => getFile (m.fromSq : Int) == fromFile
          let sameRank := ambiguousMoves.any fun m => getRank (m.fromSq : Int) == fromRank
          if !sameFile then san ++ [(indexToAlgebraic move.fromSq).getD 0 ' ']
          else if !sameRank then san ++ [(indexToAlgebraic move.fromSq).getD 1 ' ']
          else san ++ indexToAlgebraic move.fromSq
        else san
      else san
    let san := if move.piece.type == PieceType.pawn && move.captured.isSome then
      san ++ [(indexToAlgebraic move.fromSq).getD 0 ' '] else san
    let san := if move.captured.isSome then san ++ ['x'] else san
    let san := san ++ indexToAlgebraic move.toSq
    match move.promotion with
    | some p => san ++ ['='] ++ [pieceTypeUpperChar p]
    | none => san

/-- `isInCheckHelper` in `notation.ts`: finds the king, then — to avoid a
circular import — returns `false` unconditionally. -/
def isInCheckHelper (position : Position) : Bool :=
  let kingSquare : Int :=
    match (List.range 64).find? fun i =>
      match getPiece position.board i with
      | some piece => piece.type == PieceType.king && piece.color == position.sideToMove
      | none => false
    with
    | some i => (i : Int)
    | none => -1
  if kingSquare == -1 then false else false

/-- `moveToSanWithCheck`. -/
def moveToSanWithCheck (position : Position) (move : Move)
    (resultingPosition : Position) : List Char :=
  let san := moveToSan position move
  let legalMoves := generateLegalMoves resultingPosition
  let isCheck := decide (legalMoves.length > 0) && isInCheckHelper resultingPosition
  let isCheckmate := decide (legalMoves.length = 0) && isInCheckHelper resultingPosition
  if isCheckmate then san ++ ['#'] else if isCheck then san ++ ['+'] else san

/-! # Theorems -/


/-- C1: for every position `P` and every move `m` returned by
`generateLegalMoves P`, applying `makeMove P m` yields a position in which the
side that just moved (`P.sideToMove`) is not in check. -/
theorem generateLegalMoves_not_inCheck (P : Position) (m : Move)
    (hm : m ∈ generateLegalMoves P) :
    isInCheck (makeMove P m).board P.sideToMove = false := by
  unfold generateLegalMoves at hm
  have hleg : isMoveLegal P m = true := (List.mem_filter.mp hm).2
  unfold isMoveLegal at hleg
  simpa using hleg

/-- Witness for C1 at a concrete input: the king move a1→a2 is produced by
`generateLegalMoves` on `samplePosKPk`, and the resulting position leaves
White out of check. -/
theorem generateLegalMoves_not_inCheck_witness :
    ({ fromSq := 0, toSq := 8, piece := ⟨PieceType.king, Color.white⟩,
       moveType := MoveType.normal } : Move) ∈ generateLegalMoves samplePosKPk
    ∧ isInCheck
        (makeMove samplePosKPk
          { fromSq := 0, toSq := 8, piece := ⟨PieceType.king, Color.white⟩,
            moveType := MoveType.normal }).board
        samplePosKPk.sideToMove = false :=
  ⟨by decide, generateLegalMoves_not_inCheck samplePosKPk _ (by decide)⟩


/-! ### Helper lemmas for the FEN round trip -/

theorem digitChar_facts (d : Nat) (hd : d < 10) :
    (Char.ofNat (48 + d)).isDigit = true ∧
    (Char.ofNat (48 + d)).isWhitespace = false ∧
    Char.ofNat (48 + d) ≠ '/' ∧
    Char.ofNat (48 + d) ≠ '-' ∧
    Char.ofNat (48 + d) ≠ '+' ∧
    (Char.ofNat (48 + d)).toNat = 48 + d := by
  interval_cases d <;> exact ⟨by decide, by decide, by decide, by decide, by decide, by decide⟩

theorem natToCharsGo_irrel :
    ∀ (n f1 f2 : Nat), n < f1 → n < f2 → natToCharsGo f1 n = natToCharsGo f2 n := by
  intro n
  induction n using Nat.strong_induction_on with
  | _ n ih =>
    intro f1 f2 h1 h2
    cases f1 with
    | zero => omega
    | succ g1 =>
      cases f2 with
      | zero => omega
      | succ g2 =>
        show (if n < 10 then [Char.ofNat (48 + n)]
            else natToCharsGo g1 (n / 10) ++ [Char.ofNat (48 + n % 10)])
          = (if n < 10 then [Char.ofNat (48 + n)]
            else natToCharsGo g2 (n / 10) ++ [Char.ofNat (48 + n % 10)])
        by_cases h : n < 10
        · rw [if_pos h, if_pos h]
        · rw [if_neg h, if_neg h]
          rw [ih (n / 10) (Nat.div_lt_self (by omega) (by omega)) g1 g2 (by omega) (by omega)]

theorem natToChars_eq (n : Nat) :
    natToChars n = if n < 10 then [Char.ofNat (48 + n)]
      else natToChars (n / 10) ++ [Char.ofNat (48 + n % 10)] := by
  show natToCharsGo (n + 1) n = _
  rw [show natToCharsGo (n + 1) n = if n < 10 then [Char.ofNat (48 + n)]
      else natToCharsGo n (n / 10) ++ [Char.ofNat (48 + n % 10)] from rfl]
  by_cases h : n < 10
  · rw [if_pos h, if_pos h]
  · rw [if_neg h, if_neg h]
    rw [natToCharsGo_irrel (n / 10) n (n / 10 + 1)
      (Nat.div_lt_self (by omega) (by omega)) (by omega)]
    rfl

theorem natToChars_all (n : Nat) :
    ∀ c ∈ natToChars n,
      c.isDigit = true ∧ c.isWhitespace = false ∧ c ≠ '/' ∧ c ≠ '-' ∧ c ≠ '+' := by
  induction n using Nat.strong_induction_on with
  | _ n ih =>
    rw [natToChars_eq]
    split
    · intro c hc
      rw [List.mem_singleton] at hc
      subst hc
      obtain ⟨h1, h2, h3, h4, h5, _⟩ := digitChar_facts n (by omega)
      exact ⟨h1, h2, h3, h4, h5⟩
    · intro c hc
      rw [List.mem_append] at hc
      rcases hc with hc | hc
      · exact ih (n / 10) (Nat.div_lt_self (by omega) (by omega)) c hc
      · rw [List.mem_singleton] at hc
        subst hc
        obtain ⟨h1, h2, h3, h4, h5, _⟩ := digitChar_facts (n % 10) (Nat.mod_lt n (by omega))
        exact ⟨h1, h2, h3, h4, h5⟩

theorem natToChars_ne_nil (n : Nat) : natToChars n ≠ [] := by
  rw [natToChars_eq]
  split
  · simp
  · simp

theorem takeWhile_eq_self_of_all {p : Char → Bool} :
    ∀ l : List Char, (∀ c ∈ l, p c = true) → l.takeWhile p = l := by
  intro l h
  induction l with
  | nil => rfl
  | cons a t iht =>
    rw [List.takeWhile_cons, h a (List.mem_cons_self a t), if_pos rfl]
    rw [iht fun c hc => h c (List.mem_cons_of_mem a hc)]

theorem digitsVal_natToChars (n : Nat) :
    (natToChars n).foldl (fun a c => a * 10 + ((c.toNat : Int) - 48)) 0 = n := by
  induction n using Nat.strong_induction_on with
  | _ n ih =>
    rw [natToChars_eq]
    split
    · next h =>
      obtain ⟨_, _, _, _, _, h6⟩ := digitChar_facts n h
      simp [h6]
    · next h =>
      rw [List.foldl_append]
      rw [ih (n / 10) (Nat.div_lt_self (by omega) (by omega))]
      obtain ⟨_, _, _, _, _, h6⟩ := digitChar_facts (n % 10) (Nat.mod_lt n (by omega))
      simp only [List.foldl_cons, List.foldl_nil, h6]
      push_cast
      omega

theorem parseIntTs_natToChars (n : Nat) : parseIntTs (natToChars n) = some (n : Int) := by
  obtain ⟨c, cs, hc⟩ := List.exists_cons_of_ne_nil (natToChars_ne_nil n)
  obtain ⟨hdig, hws, _, hminus, hplus⟩ :=
    natToChars_all n c (by rw [hc]; exact List.mem_cons_self c cs)
  unfold parseIntTs
  have hdrop : (natToChars n).dropWhile Char.isWhitespace = natToChars n := by
    rw [hc, List.dropWhile_cons, hws]
    simp
  have hhead : (natToChars n).head? = some c := by rw [hc]; rfl
  have ht : List.takeWhile Char.isDigit (natToChars n) = natToChars n :=
    takeWhile_eq_self_of_all _ (fun d hd => (natToChars_all n d hd).1)
  have hempty : (natToChars n).isEmpty = false := by rw [hc]; rfl
  simp [hdrop, hhead, hminus, hplus, ht, hempty, digitsVal_natToChars]


theorem dropWhile_eq_nil_of_all {p : Char → Bool} :
    ∀ l : List Char, (∀ c ∈ l, p c = true) → l.dropWhile p = [] := by
  intro l h
  induction l with
  | nil => rfl
  | cons a t iht =>
    rw [List.dropWhile_cons, h a (List.mem_cons_self a t), if_pos rfl]
    exact iht fun c hc => h c (List.mem_cons_of_mem a hc)

theorem takeWhile_append_sep {q : Char → Bool} :
    ∀ (x : List Char) (b : Char) (t : List Char), (∀ c ∈ x, q c = true) → q b = false →
      ((x ++ b :: t).takeWhile q) = x := by
  intro x b t hx hb
  induction x with
  | nil => simp [List.takeWhile_cons, hb]
  | cons a x1 ihx =>
    rw [List.cons_append, List.takeWhile_cons, hx a (List.mem_cons_self a x1), if_pos rfl]
    rw [ihx fun c hc => hx c (List.mem_cons_of_mem a hc)]

theorem dropWhile_append_sep {q : Char → Bool} :
    ∀ (x : List Char) (b : Char) (t : List Char), (∀ c ∈ x, q c = true) → q b = false →
      ((x ++ b :: t).dropWhile q) = b :: t := by
  intro x b t hx hb
  induction x with
  | nil => simp [List.dropWhile_cons, hb]
  | cons a x1 ihx =>
    rw [List.cons_append, List.dropWhile_cons, hx a (List.mem_cons_self a x1), if_pos rfl]
    exact ihx fun c hc => hx c (List.mem_cons_of_mem a hc)

theorem dropWhile_cons_false {q : Char → Bool} (c : Char) (t : List Char) (hc : q c = false) :
    (c :: t).dropWhile q = c :: t := by
  rw [List.dropWhile_cons, hc]
  simp


theorem dropWhile_eq_self_head {q : Char → Bool} (cs : List Char) (a : Char)
    (hhead : cs.head? = some a) (ha : q a = false) : cs.dropWhile q = cs := by
  cases cs with
  | nil => rfl
  | cons c t =>
    have : c = a := by
      have := hhead
      simp only [List.head?_cons, Option.some.injEq] at this
      exact this
    subst this
    exact dropWhile_cons_false c t ha

theorem splitWsAux_all (x : List Char) :
    ∀ acc, (∀ c ∈ x, c.isWhitespace = false) → splitWsAux x acc = [acc.reverse ++ x] := by
  induction x with
  | nil => intro acc _; simp [splitWsAux]
  | cons c t ih =>
    intro acc h
    have hc : c.isWhitespace = false := h c (List.mem_cons_self c t)
    show splitWsAux (c :: t) acc = _
    rw [show splitWsAux (c :: t) acc
        = if c.isWhitespace then acc.reverse :: splitWsSkip t
          else splitWsAux t (c :: acc) from rfl]
    rw [hc]
    simp only [Bool.false_eq_true, if_false]
    rw [ih (c :: acc) fun d hd => h d (List.mem_cons_of_mem c hd)]
    simp

theorem splitWsAux_append_sep (x : List Char) :
    ∀ (acc t : List Char), (∀ c ∈ x, c.isWhitespace = false) →
      splitWsAux (x ++ ' ' :: t) acc = (acc.reverse ++ x) :: splitWsSkip t := by
  induction x with
  | nil =>
    intro acc t _
    show splitWsAux (' ' :: t) acc = _
    rw [show splitWsAux (' ' :: t) acc
        = if (' ').isWhitespace then acc.reverse :: splitWsSkip t
          else splitWsAux t (' ' :: acc) from rfl]
    simp
  | cons c x1 ih =>
    intro acc t h
    have hc : c.isWhitespace = false := h c (List.mem_cons_self c x1)
    rw [List.cons_append]
    rw [show splitWsAux (c :: (x1 ++ ' ' :: t)) acc
        = if c.isWhitespace then acc.reverse :: splitWsSkip (x1 ++ ' ' :: t)
          else splitWsAux (x1 ++ ' ' :: t) (c :: acc) from rfl]
    rw [hc]
    simp only [Bool.false_eq_true, if_false]
    rw [ih (c :: acc) t fun d hd => h d (List.mem_cons_of_mem c hd)]
    simp

theorem splitWs_joinSep :
    ∀ xss : List (List Char),
      (∀ xs ∈ xss, xs ≠ [] ∧ ∀ c ∈ xs, c.isWhitespace = false) → xss ≠ [] →
      splitWs (joinSep ' ' xss) = xss := by
  intro xss
  induction xss with
  | nil => intro _ hne; exact absurd rfl hne
  | cons x rest ih =>
    intro h _
    obtain ⟨hxne, hxws⟩ := h x (List.mem_cons_self x rest)
    cases rest with
    | nil =>
      show splitWsAux x [] = [x]
      rw [splitWsAux_all x [] hxws]
      rfl
    | cons y rest1 =>
      show splitWsAux (x ++ ' ' :: joinSep ' ' (y :: rest1)) [] = x :: y :: rest1
      rw [splitWsAux_append_sep x [] _ hxws]
      simp only [List.reverse_nil, List.nil_append]
      obtain ⟨hyne, hyws⟩ := h y (List.mem_cons_of_mem x (List.mem_cons_self y rest1))
      obtain ⟨c, cs, hy⟩ := List.exists_cons_of_ne_nil hyne
      have hcws : c.isWhitespace = false := hyws c (by rw [hy]; exact List.mem_cons_self c cs)
      have hz : ∃ z, joinSep ' ' (y :: rest1) = c :: (cs ++ z) := by
        cases rest1 with
        | nil => exact ⟨[], by simp [joinSep, hy]⟩
        | cons w ws =>
          refine ⟨' ' :: joinSep ' ' (w :: ws), ?_⟩
          show y ++ ' ' :: joinSep ' ' (w :: ws) = c :: (cs ++ (' ' :: joinSep ' ' (w :: ws)))
          rw [hy]
          simp
      obtain ⟨z, hz⟩ := hz
      have hrec := ih (fun xs hxs => h xs (List.mem_cons_of_mem x hxs)) (by simp)
      rw [show splitWs (joinSep ' ' (y :: rest1)) = splitWsAux (joinSep ' ' (y :: rest1)) []
          from rfl] at hrec
      rw [hz] at hrec
      rw [show splitWsAux (c :: (cs ++ z)) []
          = if c.isWhitespace then [].reverse :: splitWsSkip (cs ++ z)
            else splitWsAux (cs ++ z) [c] from rfl, hcws] at hrec
      simp only [Bool.false_eq_true, if_false] at hrec
      rw [hz]
      rw [show splitWsSkip (c :: (cs ++ z))
          = if c.isWhitespace then splitWsSkip (cs ++ z)
            else splitWsAux (cs ++ z) [c] from rfl, hcws]
      simp only [Bool.false_eq_true, if_false]
      rw [hrec]

theorem splitOnSep_no_sep (sep : Char) :
    ∀ x : List Char, sep ∉ x → splitOnSep sep x = [x] := by
  intro x hx
  induction x with
  | nil => rfl
  | cons c t iht =>
    have hc : ¬(c = sep) := fun hcs => hx (hcs ▸ List.mem_cons_self c t)
    rw [splitOnSep, if_neg hc, iht fun ht => hx (List.mem_cons_of_mem c ht)]

theorem splitOnSep_append_sep (sep : Char) :
    ∀ (x t : List Char), sep ∉ x →
      splitOnSep sep (x ++ sep :: t) = x :: splitOnSep sep t := by
  intro x t hx
  induction x with
  | nil => simp [splitOnSep]
  | cons c x1 ihx =>
    have hc : ¬(c = sep) := fun hcs => hx (hcs ▸ List.mem_cons_self c x1)
    rw [List.cons_append, splitOnSep, if_neg hc]
    rw [ihx fun hmem => hx (List.mem_cons_of_mem c hmem)]

theorem splitOnSep_joinSep (sep : Char) :
    ∀ xss : List (List Char), (∀ xs ∈ xss, sep ∉ xs) → xss ≠ [] →
      splitOnSep sep (joinSep sep xss) = xss := by
  intro xss
  induction xss with
  | nil => intro _ hne; exact absurd rfl hne
  | cons x rest ih =>
    intro h _
    cases rest with
    | nil => exact splitOnSep_no_sep sep x (h x (List.mem_cons_self x []))
    | cons y rest1 =>
      have hjoin : joinSep sep (x :: y :: rest1) = x ++ sep :: joinSep sep (y :: rest1) := rfl
      rw [hjoin, splitOnSep_append_sep sep x _ (h x (List.mem_cons_self x _))]
      rw [ih (fun xs hxs => h xs (List.mem_cons_of_mem x hxs)) (by simp)]

theorem charTrim_eq_self (cs : List Char)
    (hh : ∀ c, cs.head? = some c → c.isWhitespace = false)
    (hl : ∀ c, cs.getLast? = some c → c.isWhitespace = false) :
    charTrim cs = cs := by
  unfold charTrim
  cases hcs : cs with
  | nil => rfl
  | cons a t =>
    have ha : a.isWhitespace = false := hh a (by rw [hcs]; rfl)
    rw [← hcs, dropWhile_eq_self_head cs a (by rw [hcs]; rfl) ha]
    cases hrev : cs.reverse with
    | nil =>
      have : cs = [] := by
        have := congrArg List.reverse hrev
        simpa using this
      rw [this]
      rfl
    | cons b r =>
      have hb : cs.getLast? = some b := by
        rw [← List.head?_reverse, hrev]
        rfl
      rw [dropWhile_cons_false b r (hl b hb), ← hrev, List.reverse_reverse]


theorem pieceToCharFEN_facts (p : Piece) :
    pieceFromCharFEN (pieceToCharFEN p) = some p ∧ (pieceToCharFEN p).isDigit = false ∧
    (pieceToCharFEN p).isWhitespace = false ∧ pieceToCharFEN p ≠ '/' := by
  obtain ⟨t, c⟩ := p
  cases t <;> cases c <;> exact ⟨by decide, by decide, by decide, by decide⟩

theorem natToChars_small (n : Nat) (h : n < 10) : natToChars n = [Char.ofNat (48 + n)] := by
  rw [natToChars_eq, if_pos h]

theorem emitRankAux_chars :
    ∀ (r : List (Option Piece)) (pending : Nat), ∀ c ∈ emitRankAux pending r,
      c.isWhitespace = false ∧ c ≠ '/' := by
  intro r
  induction r with
  | nil =>
    intro pending c hc
    simp only [emitRankAux] at hc
    split at hc
    · obtain ⟨_, h2, h3, _, _⟩ := natToChars_all pending c hc
      exact ⟨h2, h3⟩
    · simp at hc
  | cons sq rest ih =>
    intro pending c hc
    cases sq with
    | none => exact ih (pending + 1) c hc
    | some p =>
      simp only [emitRankAux, List.mem_append, List.mem_cons] at hc
      rcases hc with hc | hc | hc
      · split at hc
        · obtain ⟨_, h2, h3, _, _⟩ := natToChars_all pending c hc
          exact ⟨h2, h3⟩
        · simp at hc
      · subst hc
        obtain ⟨_, _, h3, h4⟩ := pieceToCharFEN_facts p
        exact ⟨h3, h4⟩
      · exact ih 0 c hc

theorem emitRankAux_ne_nil :
    ∀ (r : List (Option Piece)) (pending : Nat), 0 < pending + r.length →
      emitRankAux pending r ≠ [] := by
  intro r
  induction r with
  | nil =>
    intro pending hp
    simp only [List.length_nil] at hp
    simp only [emitRankAux]
    rw [if_pos (by omega)]
    exact natToChars_ne_nil pending
  | cons sq rest ih =>
    intro pending _
    cases sq with
    | none =>
      show emitRankAux (pending + 1) rest ≠ []
      exact ih (pending + 1) (by omega)
    | some p =>
      simp [emitRankAux]

theorem parseRankAux_digit_step (d : Nat) (rest : List Char) (acc : List (Option Piece))
    (hd1 : 1 ≤ d) (hd8 : d ≤ 8) (hacc : acc.length < 8) :
    parseRankAux (Char.ofNat (48 + d) :: rest) acc =
      parseRankAux rest (acc ++ List.replicate d none) := by
  obtain ⟨hdig, _, _, _, _, htn⟩ := digitChar_facts d (by omega)
  rw [parseRankAux]
  rw [if_neg (by omega), if_pos hdig]
  simp only [htn, Nat.add_sub_cancel_left]
  rw [if_neg (by omega)]

theorem parseRankAux_piece_step (p : Piece) (rest : List Char) (acc : List (Option Piece))
    (hacc : acc.length < 8) :
    parseRankAux (pieceToCharFEN p :: rest) acc = parseRankAux rest (acc ++ [some p]) := by
  obtain ⟨hfrom, hnotdig, _, _⟩ := pieceToCharFEN_facts p
  rw [parseRankAux]
  rw [if_neg (by omega), if_neg (by rw [hnotdig]; simp), hfrom]

theorem parseRankAux_emitRankAux :
    ∀ (r acc : List (Option Piece)) (pending : Nat),
      acc.length + pending + r.length = 8 →
      parseRankAux (emitRankAux pending r) acc =
        Except.ok (acc ++ List.replicate pending none ++ r) := by
  intro r
  induction r with
  | nil =>
    intro acc pending hlen
    simp only [List.length_nil] at hlen
    cases pending with
    | zero =>
      show parseRankAux (emitRankAux 0 []) acc = _
      simp only [emitRankAux]
      rw [if_neg (by omega)]
      rw [parseRankAux, if_pos (by omega)]
      simp
    | succ k =>
      show parseRankAux (emitRankAux (k + 1) []) acc = _
      simp only [emitRankAux]
      rw [if_pos (by omega), natToChars_small (k + 1) (by omega)]
      rw [parseRankAux_digit_step (k + 1) [] acc (by omega) (by omega) (by omega)]
      rw [parseRankAux, if_pos (by simp only [List.length_append, List.length_replicate]; omega)]
      simp
  | cons sq rest ih =>
    intro acc pending hlen
    simp only [List.length_cons] at hlen
    cases sq with
    | none =>
      show parseRankAux (emitRankAux (pending + 1) rest) acc = _
      rw [ih acc (pending + 1) (by omega)]
      simp [List.replicate_succ', List.append_assoc]
    | some p =>
      cases pending with
      | zero =>
        show parseRankAux (emitRankAux 0 (some p :: rest)) acc = _
        simp only [emitRankAux]
        rw [if_neg (by omega), List.nil_append]
        rw [parseRankAux_piece_step p _ acc (by omega)]
        rw [ih (acc ++ [some p]) 0 (by simp only [List.length_append, List.length_cons, List.length_nil]; omega)]
        simp
      | succ k =>
        show parseRankAux (emitRankAux (k + 1) (some p :: rest)) acc = _
        simp only [emitRankAux]
        rw [if_pos (by omega), natToChars_small (k + 1) (by omega), List.singleton_append]
        rw [parseRankAux_digit_step (k + 1) _ acc (by omega) (by omega) (by omega)]
        rw [parseRankAux_piece_step p _ _
          (by simp only [List.length_append, List.length_replicate]; omega)]
        rw [ih (acc ++ List.replicate (k + 1) none ++ [some p]) 0
          (by simp only [List.length_append, List.length_replicate, List.length_cons, List.length_nil]; omega)]
        simp

theorem rankSquares_length (b : Board) (r : Nat) : (rankSquares b r).length = 8 := by
  simp [rankSquares]

theorem map_getPiece_range (b : Board) (hb : b.length = 64) :
    (List.range 64).map (fun i => getPiece b i) = b := by
  apply List.ext_getElem
  · simp [hb]
  · intro i h1 h2
    simp only [List.getElem_map, List.getElem_range, getPiece]
    exact List.getD_eq_getElem b none h2

theorem flatten_rankSquares (b : Board) (hb : b.length = 64) :
    ((List.range 8).map fun r => rankSquares b r).flatten = b := by
  have hmap : ∀ r : Nat, rankSquares b r
      = ((List.range 8).map fun f => r * 8 + f).map fun i => getPiece b i := by
    intro r
    simp [rankSquares, List.map_map, Function.comp]
  have h2 : ((List.range 8).map fun r => ((List.range 8).map fun f => r * 8 + f)).flatten
      = List.range 64 := by decide
  calc ((List.range 8).map fun r => rankSquares b r).flatten
      = ((List.range 8).map fun r =>
          (((List.range 8).map fun f => r * 8 + f).map fun i => getPiece b i)).flatten := by
        simp only [hmap]
    _ = (((List.range 8).map fun r =>
          ((List.range 8).map fun f => r * 8 + f)).flatten).map fun i => getPiece b i := by
        rw [List.map_flatten, List.map_map]
        rfl
    _ = (List.range 64).map fun i => getPiece b i := by rw [h2]
    _ = b := map_getPiece_range b hb


theorem joinSep_chars (sep : Char) :
    ∀ xss : List (List Char), ∀ c ∈ joinSep sep xss, c = sep ∨ ∃ xs ∈ xss, c ∈ xs := by
  intro xss
  induction xss with
  | nil => intro c hc; simp [joinSep] at hc
  | cons x rest ih =>
    cases rest with
    | nil => intro c hc; exact Or.inr ⟨x, List.mem_cons_self x [], hc⟩
    | cons y rest1 =>
      intro c hc
      rw [show joinSep sep (x :: y :: rest1) = x ++ sep :: joinSep sep (y :: rest1) from rfl] at hc
      rw [List.mem_append, List.mem_cons] at hc
      rcases hc with hc | hc | hc
      · exact Or.inr ⟨x, List.mem_cons_self x _, hc⟩
      · exact Or.inl hc
      · rcases ih c hc with h | ⟨xs, hxs, hcx⟩
        · exact Or.inl h
        · exact Or.inr ⟨xs, List.mem_cons_of_mem x hxs, hcx⟩

theorem joinSep_ne_nil_of_two (sep : Char) (xss : List (List Char)) (h : 2 ≤ xss.length) :
    joinSep sep xss ≠ [] := by
  cases xss with
  | nil => simp at h
  | cons x rest =>
    cases rest with
    | nil => simp at h
    | cons y rest1 =>
      show x ++ sep :: joinSep sep (y :: rest1) ≠ []
      simp

theorem joinSep_head (sep : Char) (x : List Char) (rest : List (List Char)) (hx : x ≠ []) :
    (joinSep sep (x :: rest)).head? = x.head? := by
  obtain ⟨c, t, hct⟩ := List.exists_cons_of_ne_nil hx
  cases rest with
  | nil => rfl
  | cons y rest1 =>
    rw [show joinSep sep (x :: y :: rest1) = x ++ sep :: joinSep sep (y :: rest1) from rfl]
    rw [hct]
    rfl

theorem getLast_append_sep (a z : List Char) (sep : Char) (hz : z ≠ []) :
    (a ++ sep :: z).getLast? = z.getLast? := by
  rw [show (a ++ sep :: z) = a ++ ([sep] ++ z) from by simp]
  rw [List.getLast?_append_of_ne_nil a (by simp : ([sep] ++ z) ≠ [])]
  rw [List.getLast?_append_of_ne_nil [sep] hz]

theorem joinSep_six_getLast (f1 f2 f3 f4 f5 f6 : List Char) (h6 : f6 ≠ []) :
    (joinSep ' ' [f1, f2, f3, f4, f5, f6]).getLast? = f6.getLast? := by
  show (f1 ++ ' ' :: (f2 ++ ' ' :: (f3 ++ ' ' :: (f4 ++ ' ' :: (f5 ++ ' ' :: f6))))).getLast?
      = f6.getLast?
  rw [getLast_append_sep _ _ _ (by simp)]
  rw [getLast_append_sep _ _ _ (by simp)]
  rw [getLast_append_sep _ _ _ (by simp)]
  rw [getLast_append_sep _ _ _ (by simp)]
  rw [getLast_append_sep _ _ _ h6]

theorem generatePiecePlacement_ne_nil (b : Board) : generatePiecePlacement b ≠ [] := by
  unfold generatePiecePlacement
  exact joinSep_ne_nil_of_two _ _ (by simp)

theorem generatePiecePlacement_noWs (b : Board) :
    ∀ c ∈ generatePiecePlacement b, c.isWhitespace = false := by
  intro c hc
  rcases joinSep_chars '/' _ c hc with h | ⟨xs, hxs, hcx⟩
  · rw [h]; decide
  · rw [List.mem_map] at hxs
    obtain ⟨i, _, hxi⟩ := hxs
    rw [← hxi] at hcx
    exact (emitRankAux_chars _ 0 c hcx).1

theorem generateCastlingRights_facts (cr : CastlingRights) :
    generateCastlingRights cr ≠ []
    ∧ (∀ c ∈ generateCastlingRights cr, c.isWhitespace = false)
    ∧ parseCastlingRights (generateCastlingRights cr) = cr := by
  obtain ⟨a, b, c, d⟩ := cr
  cases a <;> cases b <;> cases c <;> cases d <;>
    exact ⟨by decide, by decide, by decide⟩

theorem epAlg_facts :
    ∀ sq, sq < 64 →
      parseEnPassant (indexToAlgebraic sq) = Except.ok (some sq)
      ∧ indexToAlgebraic sq ≠ []
      ∧ ∀ c ∈ indexToAlgebraic sq, c.isWhitespace = false := by
  decide

theorem parsePiecePlacement_roundtrip (b : Board) (hb : b.length = 64) :
    parsePiecePlacement (generatePiecePlacement b) = Except.ok b := by
  have hrow : ∀ i : Nat,
      parseRankAux (emitRankAux 0 (rankSquares b i)) [] = Except.ok (rankSquares b i) := by
    intro i
    have h := parseRankAux_emitRankAux (rankSquares b i) [] 0
      (by simp only [List.length_nil, rankSquares_length])
    simpa using h
  have hnosep : ∀ xs ∈ (List.range 8).map fun i => emitRankAux 0 (rankSquares b (7 - i)),
      '/' ∉ xs := by
    intro xs hxs
    rw [List.mem_map] at hxs
    obtain ⟨i, _, hxi⟩ := hxs
    intro hc
    rw [← hxi] at hc
    exact (emitRankAux_chars _ 0 '/' hc).2 rfl
  unfold parsePiecePlacement generatePiecePlacement
  rw [splitOnSep_joinSep '/' _ hnosep (by simp)]
  rw [if_neg (by simp)]
  rw [show (List.range 8).map (fun i => emitRankAux 0 (rankSquares b (7 - i)))
      = [emitRankAux 0 (rankSquares b 7), emitRankAux 0 (rankSquares b 6),
         emitRankAux 0 (rankSquares b 5), emitRankAux 0 (rankSquares b 4),
         emitRankAux 0 (rankSquares b 3), emitRankAux 0 (rankSquares b 2),
         emitRankAux 0 (rankSquares b 1), emitRankAux 0 (rankSquares b 0)] from rfl]
  show parseRanksLoop _ [0, 1, 2, 3, 4, 5, 6, 7] = Except.ok b
  simp [parseRanksLoop, hrow, Except.bind, bind, pure, Except.pure]
  have hflat := flatten_rankSquares b hb
  rw [show (List.range 8).map (fun r => rankSquares b r)
      = [rankSquares b 0, rankSquares b 1, rankSquares b 2, rankSquares b 3,
         rankSquares b 4, rankSquares b 5, rankSquares b 6, rankSquares b 7] from rfl] at hflat
  simpa using hflat


theorem mem_of_getLast?_eq (l : List Char) (c : Char) (hc : l.getLast? = some c) : c ∈ l := by
  induction l with
  | nil => simp at hc
  | cons a t ih =>
    cases t with
    | nil =>
      simp [List.getLast?] at hc
      simp [hc]
    | cons b t' =>
      rw [List.getLast?_cons_cons] at hc
      exact List.mem_cons_of_mem a (ih hc)

/-- C2: for every well-formed position (length-64 board, in-range en-passant
square, fullmove number at least 1), emitting a FEN string with `toFen` and
re-parsing it with `parseFen` reproduces the identical `Position`, including
castling rights, en-passant square, halfmove clock and fullmove number. -/
theorem parseFen_toFen (P : Position) (hb : P.board.length = 64)
    (hep : ∀ sq ∈ P.enPassantSquare, sq < 64) (hfm : 1 ≤ P.fullmoveNumber) :
    parseFen (toFen P) = Except.ok P := by
  obtain ⟨b, stm, cr, ep, hm, fm⟩ := P
  simp only at hb hep hfm
  obtain ⟨hf3ne, hf3ws, hf3rt⟩ := generateCastlingRights_facts cr
  have hf2ne : (if stm = Color.white then ['w'] else ['b']) ≠ [] := by
    cases stm <;> decide
  have hf2ws : ∀ c ∈ (if stm = Color.white then ['w'] else ['b']), c.isWhitespace = false := by
    cases stm <;> decide
  have hside : parseSideToMove (if stm = Color.white then ['w'] else ['b']) = Except.ok stm := by
    cases stm <;> decide
  have hf4 : parseEnPassant (epFieldChars ep) = Except.ok ep
      ∧ epFieldChars ep ≠ []
      ∧ ∀ c ∈ epFieldChars ep, c.isWhitespace = false :=
    match ep, hep with
    | none, _ => ⟨by decide, by decide, by decide⟩
    | some sq, hep => epAlg_facts sq (hep sq rfl)
  obtain ⟨hf4rt, hf4ne, hf4ws⟩ := hf4
  have hfields : ∀ xs ∈ [generatePiecePlacement b,
      (if stm = Color.white then ['w'] else ['b']),
      generateCastlingRights cr,
      epFieldChars ep,
      natToChars hm, natToChars fm],
      xs ≠ [] ∧ ∀ c ∈ xs, c.isWhitespace = false := by
    intro xs hxs
    simp only [List.mem_cons, List.not_mem_nil, or_false] at hxs
    rcases hxs with h | h | h | h | h | h <;> subst h
    · exact ⟨generatePiecePlacement_ne_nil b, generatePiecePlacement_noWs b⟩
    · exact ⟨hf2ne, hf2ws⟩
    · exact ⟨hf3ne, hf3ws⟩
    · exact ⟨hf4ne, hf4ws⟩
    · exact ⟨natToChars_ne_nil hm, fun c hc => (natToChars_all hm c hc).2.1⟩
    · exact ⟨natToChars_ne_nil fm, fun c hc => (natToChars_all fm c hc).2.1⟩
  have htrim : charTrim (joinSep ' ' [generatePiecePlacement b,
      (if stm = Color.white then ['w'] else ['b']),
      generateCastlingRights cr,
      epFieldChars ep,
      natToChars hm, natToChars fm])
      = joinSep ' ' [generatePiecePlacement b,
      (if stm = Color.white then ['w'] else ['b']),
      generateCastlingRights cr,
      epFieldChars ep,
      natToChars hm, natToChars fm] := by
    apply charTrim_eq_self
    · intro c hc
      rw [joinSep_head ' ' _ _ (generatePiecePlacement_ne_nil b)] at hc
      exact generatePiecePlacement_noWs b c (List.mem_of_mem_head? hc)
    · intro c hc
      rw [joinSep_six_getLast _ _ _ _ _ _ (natToChars_ne_nil fm)] at hc
      exact (natToChars_all fm c (mem_of_getLast?_eq _ c hc)).2.1
  have hsplit := splitWs_joinSep [generatePiecePlacement b,
      (if stm = Color.white then ['w'] else ['b']),
      generateCastlingRights cr,
      epFieldChars ep,
      natToChars hm, natToChars fm] hfields (by simp)
  have hclock5 : parseIntTs (natToChars hm) = some (hm : Int) := parseIntTs_natToChars hm
  have hclock6 : parseIntTs (natToChars fm) = some (fm : Int) := parseIntTs_natToChars fm
  have hnn5 : ¬((hm : Int) < 0) := by omega
  have hnn6 : ¬((fm : Int) < 1) := by omega
  show parseFen (String.mk (joinSep ' ' [generatePiecePlacement b,
      (if stm = Color.white then ['w'] else ['b']),
      generateCastlingRights cr,
      epFieldChars ep,
      natToChars hm, natToChars fm])) = _
  unfold parseFen
  rw [show (String.mk (joinSep ' ' [generatePiecePlacement b,
      (if stm = Color.white then ['w'] else ['b']),
      generateCastlingRights cr,
      epFieldChars ep,
      natToChars hm, natToChars fm])).data
      = joinSep ' ' [generatePiecePlacement b,
      (if stm = Color.white then ['w'] else ['b']),
      generateCastlingRights cr,
      epFieldChars ep,
      natToChars hm, natToChars fm] from rfl]
  rw [htrim, hsplit]
  rw [if_neg (by simp)]
  simp only [List.getD_cons_zero, List.getD_cons_succ, List.getElem?_cons_zero,
    List.getElem?_cons_succ, parsePiecePlacement_roundtrip b hb, hside, hf3rt, hf4rt,
    hclock5, hclock6, if_neg hnn5, if_neg hnn6, Except.bind, bind, pure, Except.pure,
    Int.toNat_natCast]


/-- Witness for C2 at a concrete input: `samplePosKPk` is well-formed and
round-trips through `toFen`/`parseFen`. -/
theorem parseFen_toFen_witness :
    samplePosKPk.board.length = 64
    ∧ (∀ sq ∈ samplePosKPk.enPassantSquare, sq < 64)
    ∧ 1 ≤ samplePosKPk.fullmoveNumber
    ∧ parseFen (toFen samplePosKPk) = Except.ok samplePosKPk :=
  ⟨by decide, by decide, by decide,
   parseFen_toFen samplePosKPk (by decide) (by decide) (by decide)⟩

/-- C3 counterexample: `parseFen` accepts the FEN
`8/8/8/8/8/8/8/8 w - - 0 1`, whose piece placement has no king of either
color, so `parseFen` does not reject king-less placements. -/
theorem parseFen_accepts_kingless :
    (parseFen "8/8/8/8/8/8/8/8 w - - 0 1").isOk = true
    ∧ (parseFen "8/8/8/8/8/8/8/8 w - - 0 1").toOption.map
        (fun p => countKings p.board Color.white + countKings p.board Color.black)
      = some 0 := by
  exact ⟨by decide, by decide⟩

/-- C3 (amended): the king-count check lives in `validateFen`, not
`parseFen`: `validateFen` accepts exactly the FEN strings that parse
successfully into a position with exactly one king of each color, while
`parseFen` itself rejects a wrong number of ranks, rank overflow/underflow,
unknown piece letters, a wrong side character, a malformed en-passant square
and clocks that do not begin with a digit (witnessed on representative
inputs). -/
theorem validateFen_kings_characterization :
    (∀ fen : String, validateFen fen = true ↔
      ∃ p, parseFen fen = Except.ok p
        ∧ countKings p.board Color.white = 1 ∧ countKings p.board Color.black = 1)
    ∧ (parseFen "8/8/8/8 w - - 0 1").isOk = false
    ∧ (parseFen "8/8/8/8/8/8/8/45 w - - 0 1").isOk = false
    ∧ (parseFen "8/8/8/8/8/8/8/7x w - - 0 1").isOk = false
    ∧ (parseFen "8/8/8/8/8/8/8/8 x - - 0 1").isOk = false
    ∧ (parseFen "8/8/8/8/8/8/8/8 w - e9 0 1").isOk = false
    ∧ (parseFen "8/8/8/8/8/8/8/8 w - - x 1").isOk = false := by
  refine ⟨?_, by decide, by decide, by decide, by decide, by decide, by decide⟩
  intro fen
  unfold validateFen
  cases hp : parseFen fen with
  | error e => simp
  | ok p => simp



/-- C5: whenever the side to move has no legal move, `evaluate` returns
-100000 (`-MATE_SCORE`) when White is to move and in check, +100000 when
Black is to move and in check, and 0 (`DRAW_SCORE`) when the side to move is
not in check. -/
theorem evaluate_no_legal_moves (P : Position) (h : generateLegalMoves P = []) :
    evaluate P =
      if isInCheck P.board P.sideToMove then
        (if P.sideToMove = Color.white then -100000 else 100000)
      else 0 := by
  have hic : isInCheckSimple P = isInCheck P.board P.sideToMove := by
    unfold isInCheckSimple isInCheck oppositeColor
    cases findKing P.board P.sideToMove with
    | none => rfl
    | some k => cases P.sideToMove <;> rfl
  unfold evaluate
  rw [h]
  simp only [List.length_nil]
  rw [if_pos trivial, hic]
  by_cases hchk : isInCheck P.board P.sideToMove = true
  · rw [if_pos hchk]
    simp only [hchk, Bool.not_true, Bool.false_eq_true, if_false]
    unfold MATE_SCORE
    cases P.sideToMove <;> simp
  · simp only [Bool.not_eq_true] at hchk
    rw [hchk]
    simp [DRAW_SCORE]

/-- Witness for C5 at concrete inputs: a checkmate position (white king a1,
black queen b2, black king c2) evaluates through the theorem, as does a
stalemate position (white king a1, black queen c2, black king h8). -/
theorem evaluate_no_legal_moves_witness :
    (generateLegalMoves samplePosMated = []
      ∧ evaluate samplePosMated =
          (if isInCheck samplePosMated.board samplePosMated.sideToMove then
            (if samplePosMated.sideToMove = Color.white then -100000 else 100000)
          else 0))
    ∧ (generateLegalMoves samplePosStale = []
      ∧ evaluate samplePosStale =
          (if isInCheck samplePosStale.board samplePosStale.sideToMove then
            (if samplePosStale.sideToMove = Color.white then -100000 else 100000)
          else 0)) :=
  ⟨⟨by decide, evaluate_no_legal_moves samplePosMated (by decide)⟩,
   ⟨by decide, evaluate_no_legal_moves samplePosStale (by decide)⟩⟩

/-! ### C8: history scores and move ordering -/

theorem histFind_le_of_sound (table : List (HistKey × Nat)) (key : HistKey) (bound : Nat)
    (hsound : ∀ kv ∈ table, kv.2 ≤ bound) : (histFind table key).getD 0 ≤ bound := by
  unfold histFind
  cases hf : table.find? fun kv => kv.1 == key with
  | none => simp
  | some kv =>
    simp only [Option.getD_some]
    exact hsound kv (List.mem_of_find?_eq_some hf)

theorem histSet_values (table : List (HistKey × Nat)) (key : HistKey) (v : Nat) :
    ∀ kv ∈ histSet table key v, kv.2 = v ∨ ∃ kv2 ∈ table, kv.2 = kv2.2 := by
  intro kv hkv
  unfold histSet at hkv
  split at hkv
  · rw [List.mem_map] at hkv
    obtain ⟨kv2, hkv2, hmap⟩ := hkv
    by_cases hk : (kv2.1 == key) = true
    · rw [if_pos hk] at hmap
      exact Or.inl (by rw [← hmap])
    · rw [if_neg hk] at hmap
      exact Or.inr ⟨kv2, hkv2, by rw [← hmap]⟩
  · rw [List.mem_append] at hkv
    rcases hkv with hkv | hkv
    · exact Or.inr ⟨kv, hkv, rfl⟩
    · rw [List.mem_singleton] at hkv
      exact Or.inl (by rw [hkv])

/-- Soundness and boundedness of the history table under `addCutoff` updates
with depths at most 197: the cached max dominates every entry, and never
exceeds 38999. -/
theorem historyReachable_bounds (t : HistoryTable) (h : HistoryReachableLe 197 t) :
    (∀ kv ∈ t.table, kv.2 ≤ t.maxValue) ∧ t.maxValue ≤ 38999 := by
  induction h with
  | empty =>
    constructor
    · intro kv hkv
      simp [HistoryTable.new] at hkv
    · decide
  | step ht move depth hht hdep ih =>
    obtain ⟨hsound, hbound⟩ := ih
    have hcur : (histFind ht.table (histGetKey move)).getD 0 ≤ ht.maxValue :=
      histFind_le_of_sound ht.table (histGetKey move) ht.maxValue hsound
    have hdd : depth * depth ≤ 38809 := Nat.mul_le_mul hdep hdep
    have hnewv : (histFind ht.table (histGetKey move)).getD 0 + depth * depth ≤ 77808 := by
      omega
    have hsound1 : ∀ kv ∈ histSet ht.table (histGetKey move)
        ((histFind ht.table (histGetKey move)).getD 0 + depth * depth),
        kv.2 ≤ max ht.maxValue
          ((histFind ht.table (histGetKey move)).getD 0 + depth * depth) := by
      intro kv hkv
      rcases histSet_values _ _ _ kv hkv with hv | ⟨kv2, hkv2, hv⟩
      · omega
      · have := hsound kv2 hkv2
        omega
    have hmax1 : max ht.maxValue
        ((histFind ht.table (histGetKey move)).getD 0 + depth * depth) ≤ 77808 := by
      omega
    unfold HistoryTable.addCutoff
    dsimp only [HistoryTable.age]
    by_cases hage : max ht.maxValue
        ((histFind ht.table (histGetKey move)).getD 0 + depth * depth) > 10000
    · rw [if_pos hage]
      constructor
      · intro kv hkv
        rw [List.mem_map] at hkv
        obtain ⟨kv2, hkv2, hmap⟩ := hkv
        have h2 := hsound1 kv2 hkv2
        rw [← hmap]
        show kv2.2 / 2 ≤ max ht.maxValue
          ((histFind ht.table (histGetKey move)).getD 0 + depth * depth) / 2
        omega
      · show max ht.maxValue
          ((histFind ht.table (histGetKey move)).getD 0 + depth * depth) / 2 ≤ 38999
        omega
    · rw [if_neg hage]
      constructor
      · intro kv hkv
        exact hsound1 kv hkv
      · show max ht.maxValue
          ((histFind ht.table (histGetKey move)).getD 0 + depth * depth) ≤ 38999
        omega

theorem getScore_le_of_reachable (t : HistoryTable) (h : HistoryReachableLe 197 t)
    (m : Move) : t.getScore m ≤ 38999 := by
  obtain ⟨hsound, hbound⟩ := historyReachable_bounds t h
  unfold HistoryTable.getScore
  have := histFind_le_of_sound t.table (histGetKey m) t.maxValue hsound
  omega

theorem killerScoreLoop_none (m : Move) (l : List Move)
    (hk : ∀ k ∈ l, ¬(m.fromSq = k.fromSq ∧ m.toSq = k.toSq)) :
    ∀ i, killerScoreLoop m l i = none := by
  induction l with
  | nil => intro i; rfl
  | cons k rest ih =>
    intro i
    unfold killerScoreLoop
    have hcond : (m.fromSq == k.fromSq && m.toSq == k.toSq) = false := by
      have := hk k (List.mem_cons_self k rest)
      cases hf : m.fromSq == k.fromSq with
      | false => rfl
      | true =>
        cases ht : m.toSq == k.toSq with
        | false => rfl
        | true =>
          exact absurd ⟨eq_of_beq hf, eq_of_beq ht⟩ this
    rw [hcond]
    simp only [Bool.false_eq_true, if_false]
    exact ih (fun k2 hk2 => hk k2 (List.mem_cons_of_mem k hk2)) (i + 1)

/-- C8 counterexample: the history state reached from the empty table by a
single `addCutoff` of depth 300 gives the quiet non-killer knight move b1→c3
an ordering score of 45000, which is outside [0, 38999] and outranks both
killer scores (40000 and 39000) — `scoreMove` applies no clamp. -/
theorem scoreMove_history_counterexample :
    HistoryReachableLe 300 (HistoryTable.new.addCutoff sampleQuietMove 300)
    ∧ sampleQuietMove.promotion = none
    ∧ sampleQuietMove.captured = none
    ∧ (KillerMoves.new 64).get 0 = []
    ∧ scoreMove sampleQuietMove none (KillerMoves.new 64)
        (HistoryTable.new.addCutoff sampleQuietMove 300) 0 = 45000
    ∧ SCORE_KILLER_1 < 45000 ∧ (38999 : Int) < 45000 :=
  ⟨HistoryReachableLe.step _ _ _ HistoryReachableLe.empty (Nat.le_refl 300),
   by decide, by decide, by decide, by decide, by decide, by decide⟩

/-- C8 (amended): `scoreMove` scores a move that is not the hash move, not a
promotion, not a capture and not a killer by its raw history entry (no
explicit clamp); for every history state reachable by `addCutoff` updates
whose depths are at most 197, that score lies in [0, 38999] and is strictly
below both killer scores. -/
theorem scoreMove_history_bounded (t : HistoryTable)
    (hreach : HistoryReachableLe 197 t) (m : Move) (hashMove : Option Move)
    (km : KillerMoves) (ply : Nat)
    (hhash : ∀ hm, hashMove = some hm → ¬(m.fromSq = hm.fromSq ∧ m.toSq = hm.toSq))
    (hpromo : m.promotion = none) (hcap : m.captured = none)
    (hkiller : ∀ k ∈ km.get ply, ¬(m.fromSq = k.fromSq ∧ m.toSq = k.toSq)) :
    scoreMove m hashMove km t ply = SCORE_HISTORY_BASE + (t.getScore m : Int)
    ∧ 0 ≤ scoreMove m hashMove km t ply
    ∧ scoreMove m hashMove km t ply ≤ 38999
    ∧ scoreMove m hashMove km t ply < SCORE_KILLER_2 := by
  have hsc : scoreMove m hashMove km t ply = SCORE_HISTORY_BASE + (t.getScore m : Int) := by
    have hish : isHashMove m hashMove = false := by
      cases hmv : hashMove with
      | none => rfl
      | some hm =>
        have hne := hhash hm hmv
        show (m.fromSq == hm.fromSq && m.toSq == hm.toSq) = false
        cases hf : m.fromSq == hm.fromSq with
        | false => simp [hf]
        | true =>
          cases ht2 : m.toSq == hm.toSq with
          | false => simp [hf, ht2]
          | true =>
            exact absurd ⟨eq_of_beq hf, eq_of_beq ht2⟩ hne
    unfold scoreMove
    rw [hish]
    simp only [Bool.false_eq_true, if_false, hpromo, hcap]
    rw [killerScoreLoop_none m (km.get ply) hkiller 0]
  have hle : t.getScore m ≤ 38999 := getScore_le_of_reachable t hreach m
  refine ⟨hsc, ?_, ?_, ?_⟩
  · rw [hsc]
    unfold SCORE_HISTORY_BASE
    omega
  · rw [hsc]
    unfold SCORE_HISTORY_BASE
    omega
  · rw [hsc]
    unfold SCORE_HISTORY_BASE SCORE_KILLER_2
    omega

/-- Witness for the amended C8 bound at a concrete input: one depth-3 cutoff
recorded for the quiet knight move b1→c3 keeps its ordering score within the
bound and below the killer scores. -/
theorem scoreMove_history_bounded_witness :
    scoreMove sampleQuietMove none (KillerMoves.new 64)
        (HistoryTable.new.addCutoff sampleQuietMove 3) 0 ≤ 38999
    ∧ scoreMove sampleQuietMove none (KillerMoves.new 64)
        (HistoryTable.new.addCutoff sampleQuietMove 3) 0 < SCORE_KILLER_2 := by
  have hk : (KillerMoves.new 64).get 0 = [] := by decide
  have happ := scoreMove_history_bounded (HistoryTable.new.addCutoff sampleQuietMove 3)
    (HistoryReachableLe.step _ _ _ HistoryReachableLe.empty (by omega)) sampleQuietMove none
    (KillerMoves.new 64) 0 (fun hm h => Option.noConfusion h) (by decide) (by decide)
    (fun k hkk => by rw [hk] at hkk; exact absurd hkk (List.not_mem_nil k))
  exact ⟨happ.2.2.1, happ.2.2.2⟩

/-! ### C10: transposition-table probes never take the collision-miss branch -/

theorem hexDigitVal_hexDigitChar (d : Nat) (hd : d < 16) :
    hexDigitVal (hexDigitChar d) = d := by
  interval_cases d <;> decide

theorem natToHexGo_irrel :
    ∀ (n f1 f2 : Nat), n < f1 → n < f2 → natToHexGo f1 n = natToHexGo f2 n := by
  intro n
  induction n using Nat.strong_induction_on with
  | _ n ih =>
    intro f1 f2 h1 h2
    cases f1 with
    | zero => omega
    | succ g1 =>
      cases f2 with
      | zero => omega
      | succ g2 =>
        show (if n < 16 then [hexDigitChar n]
            else natToHexGo g1 (n / 16) ++ [hexDigitChar (n % 16)])
          = (if n < 16 then [hexDigitChar n]
            else natToHexGo g2 (n / 16) ++ [hexDigitChar (n % 16)])
        by_cases h : n < 16
        · rw [if_pos h, if_pos h]
        · rw [if_neg h, if_neg h]
          rw [ih (n / 16) (Nat.div_lt_self (by omega) (by omega)) g1 g2 (by omega) (by omega)]

theorem hashToKey_eq (n : Nat) :
    hashToKey n = if n < 16 then [hexDigitChar n]
      else hashToKey (n / 16) ++ [hexDigitChar (n % 16)] := by
  show natToHexGo (n + 1) n = _
  rw [show natToHexGo (n + 1) n = if n < 16 then [hexDigitChar n]
      else natToHexGo n (n / 16) ++ [hexDigitChar (n % 16)] from rfl]
  by_cases h : n < 16
  · rw [if_pos h, if_pos h]
  · rw [if_neg h, if_neg h]
    rw [natToHexGo_irrel (n / 16) n (n / 16 + 1)
      (Nat.div_lt_self (by omega) (by omega)) (by omega)]
    rfl

theorem hexVal_hashToKey (n : Nat) : hexVal (hashToKey n) = n := by
  induction n using Nat.strong_induction_on with
  | _ n ih =>
    rw [hashToKey_eq]
    split
    · next h =>
      unfold hexVal
      simp only [List.foldl_cons, List.foldl_nil]
      rw [hexDigitVal_hexDigitChar n h]
      omega
    · next h =>
      unfold hexVal
      rw [List.foldl_append]
      have hrec := ih (n / 16) (Nat.div_lt_self (by omega) (by omega))
      unfold hexVal at hrec
      rw [hrec]
      simp only [List.foldl_cons, List.foldl_nil]
      rw [hexDigitVal_hexDigitChar (n % 16) (Nat.mod_lt n (by omega))]
      omega

theorem hashToKey_injective (a b : Nat) (h : hashToKey a = hashToKey b) : a = b := by
  have := congrArg hexVal h
  rwa [hexVal_hashToKey, hexVal_hashToKey] at this

theorem ttSet_inv (table : List (List Char × TranspositionEntry)) (key : List Char)
    (e : TranspositionEntry) (hkey : key = hashToKey e.hash)
    (htab : ∀ kv ∈ table, kv.1 = hashToKey kv.2.hash) :
    ∀ kv ∈ ttSet table key e, kv.1 = hashToKey kv.2.hash := by
  intro kv hkv
  unfold ttSet at hkv
  split at hkv
  · rw [List.mem_map] at hkv
    obtain ⟨kv2, hkv2, hmap⟩ := hkv
    by_cases hk : (kv2.1 == key) = true
    · rw [if_pos hk] at hmap
      rw [← hmap]
      show kv2.1 = hashToKey e.hash
      rw [eq_of_beq hk, hkey]
    · rw [if_neg hk] at hmap
      rw [← hmap]
      exact htab kv2 hkv2
  · rw [List.mem_append] at hkv
    rcases hkv with hkv | hkv
    · exact htab kv hkv
    · rw [List.mem_singleton] at hkv
      rw [hkv, hkey]

theorem probe_table_eq (t : TranspositionTable) (h : Nat) :
    (t.probe h).2.table = t.table := by
  unfold TranspositionTable.probe
  dsimp only
  cases hf : t.table.find? fun kv => kv.1 == hashToKey h with
  | none => rfl
  | some kv =>
    dsimp only
    by_cases hh : kv.2.hash ≠ h
    · rw [if_pos hh]
    · rw [if_neg hh]

theorem ttReachable_inv (t : TranspositionTable) (h : TTReachable t) : TTInv t := by
  induction h with
  | new maxSizeMB =>
    intro kv hkv
    simp [TranspositionTable.new] at hkv
  | store t hash depth evaluation nodeType bestMove ht iht =>
    unfold TranspositionTable.store
    dsimp only
    cases hc : (match t.table.find? fun kv => kv.1 == hashToKey hash with
      | some kv => decide (kv.2.depth > depth)
      | none => false) with
    | true =>
      intro kv hkv
      exact iht kv hkv
    | false =>
      intro kv hkv
      refine ttSet_inv _ (hashToKey hash) ⟨hash, depth, evaluation, nodeType, bestMove⟩ rfl
        ?_ kv hkv
      intro kv2 hkv2
      split at hkv2
      · exact iht kv2 (List.mem_of_mem_drop hkv2)
      · exact iht kv2 hkv2
  | probe t hash ht iht =>
    intro kv hkv
    rw [probe_table_eq] at hkv
    exact iht kv hkv
  | clear t ht iht =>
    intro kv hkv
    simp [TranspositionTable.clear] at hkv

/-- C10: in every reachable transposition-table state, a successful key
lookup yields an entry whose stored hash equals the probed hash, so `probe`
returns the entry and the collision-miss branch (returning `none` and
incrementing the collision counter) is never taken. -/
theorem find?_pred_of_eq_some {α : Type} (p : α → Bool) :
    ∀ (l : List α) (a : α), l.find? p = some a → p a = true := by
  intro l
  induction l with
  | nil => intro a h; cases h
  | cons x t ih =>
    intro a h
    rw [List.find?_cons] at h
    cases hx : p x with
    | true =>
      rw [hx] at h
      cases h
      exact hx
    | false =>
      rw [hx] at h
      exact ih a h

theorem probe_no_collision_miss (t : TranspositionTable) (hr : TTReachable t) (h : Nat)
    (kv : List Char × TranspositionEntry)
    (hfind : (t.table.find? fun kv2 => kv2.1 == hashToKey h) = some kv) :
    kv.2.hash = h
    ∧ (t.probe h).1 = some kv.2
    ∧ (t.probe h).2.collisions = t.collisions := by
  have hinv := ttReachable_inv t hr
  have hmem : kv ∈ t.table := List.mem_of_find?_eq_some hfind
  have hpred : (kv.1 == hashToKey h) = true :=
    find?_pred_of_eq_some _ t.table kv hfind
  have hk1 : kv.1 = hashToKey h := eq_of_beq hpred
  have hhash : kv.2.hash = h :=
    hashToKey_injective _ _ (by rw [← hinv kv hmem, hk1])
  unfold TranspositionTable.probe
  dsimp only
  rw [hfind]
  dsimp only
  rw [if_neg (by simp [hhash])]
  exact ⟨hhash, rfl, rfl⟩

/-- Witness for C10 at a concrete input: one `store` into a fresh table,
then the lookup and probe for the stored hash. -/
theorem probe_no_collision_miss_witness :
    ((((TranspositionTable.new 64).store 12345 3 50 NodeType.exact none).table.find?
        fun kv2 => kv2.1 == hashToKey 12345)
      = some (hashToKey 12345, ⟨12345, 3, 50, NodeType.exact, none⟩))
    ∧ (((TranspositionTable.new 64).store 12345 3 50 NodeType.exact none).probe 12345).1
      = some ⟨12345, 3, 50, NodeType.exact, none⟩
    ∧ (((TranspositionTable.new 64).store 12345 3 50 NodeType.exact none).probe
        12345).2.collisions
      = ((TranspositionTable.new 64).store 12345 3 50 NodeType.exact none).collisions := by
  have happ := probe_no_collision_miss
    ((TranspositionTable.new 64).store 12345 3 50 NodeType.exact none)
    (TTReachable.store _ _ _ _ _ _ (TTReachable.new 64)) 12345
    (hashToKey 12345, ⟨12345, 3, 50, NodeType.exact, none⟩) (by decide)
  exact ⟨by decide, happ.2.1, happ.2.2⟩

/-! ## C4: search purity across calls -/

set_option maxRecDepth 1000000 in
/-- The first search on `samplePosKPk` leaves exactly the engine tables
`engineAfterFirstSearch` behind. -/
theorem search_first_engine_eq :
    (search elapsedZero samplePosKPk sampleSearchOptions EngineState.initial).2 =
      engineAfterFirstSearch := by
  decide

set_option maxRecDepth 1000000 in
/-- The first search on `samplePosKPk` answers Kb2 (square 0 to square 9). -/
theorem search_first_bestMove :
    (search elapsedZero samplePosKPk sampleSearchOptions EngineState.initial).1.bestMove =
      some ⟨0, 9, ⟨PieceType.king, Color.white⟩, MoveType.normal, none, none⟩ := by
  decide

set_option maxRecDepth 1000000 in
set_option smartUnfolding false in
/-- A search on `samplePosKPk` started from the poisoned tables answers Ka2
(square 0 to square 8): the depth-1 iteration hits the stored exact entry,
returns with an empty principal variation, and the driver falls back to the
first generated legal move. -/
theorem search_second_bestMove :
    (search elapsedZero samplePosKPk sampleSearchOptions engineAfterFirstSearch).1.bestMove =
      some ⟨0, 8, ⟨PieceType.king, Color.white⟩, MoveType.normal, none, none⟩ := by
  decide

/-- **C4** (counterexample).  With mistake and blunder probability 0 and no
time cutoff, `search` is NOT a pure function of (position, maxDepth): two
calls with identical position and options return different best moves,
because the transposition table persisting from the first call makes the
second call's only iteration return an empty principal variation, which
triggers the first-legal-move fallback. -/
theorem search_not_pure_across_calls :
    (search elapsedZero samplePosKPk sampleSearchOptions EngineState.initial).1.bestMove ≠
      (search elapsedZero samplePosKPk sampleSearchOptions
        (search elapsedZero samplePosKPk sampleSearchOptions EngineState.initial).2).1.bestMove := by
  rw [search_first_engine_eq, search_first_bestMove, search_second_bestMove]
  decide

/-- **C4** (amended).  `search` is a pure function of the time oracle, the
position, `maxDepth`, `maxTimeMs`, and the persisted history and
transposition tables (killer contents are cleared on entry, so only the
shape of the killer table matters); the `difficulty`, `playStyle`, and
`mistakeProbability` fields never influence the result. -/
theorem search_depends_only_on_tables (e : Nat → Nat) (p : Position)
    (o₁ o₂ : SearchOptions) (s₁ s₂ : EngineState)
    (hd : o₁.maxDepth = o₂.maxDepth) (ht : o₁.maxTimeMs = o₂.maxTimeMs)
    (hk : s₁.killerMoves.killers.length = s₂.killerMoves.killers.length)
    (hp : s₁.killerMoves.maxPly = s₂.killerMoves.maxPly)
    (hh : s₁.historyTable = s₂.historyTable)
    (htt : s₁.transpositionTable = s₂.transpositionTable) :
    search e p o₁ s₁ = search e p o₂ s₂ := by
  have hc : s₁.killerMoves.clear = s₂.killerMoves.clear := by
    unfold KillerMoves.clear
    rw [hk, hp]
  unfold search
  rw [hd, ht, hc, hh, htt]

/-- Concrete instance of the amended C4 theorem: beginner options with
mistake probability 1 give the same search result as the expert options. -/
theorem search_depends_only_on_tables_witness :
    search elapsedZero samplePosKPk sampleSearchOptions EngineState.initial =
      search elapsedZero samplePosKPk
        { maxDepth := 1, maxTimeMs := 5000, difficulty := Difficulty.beginner,
          playStyle := PlayStyle.aggressive, mistakeProbability := 1 }
        EngineState.initial :=
  search_depends_only_on_tables elapsedZero samplePosKPk _ _ _ _ rfl rfl rfl rfl rfl rfl

/-! ## C6: time-probe cadence -/

/-- **C6** (counterexample).  The time budget is probed every 1000 nodes,
not every 1024: at a node counter of 1024 the elapsed time is never
compared (no stop even though the elapsed time vastly exceeds the budget),
while at 1000 the comparison fires and latches the stop flag. -/
theorem shouldStopSearch_probes_1000_not_1024 :
    shouldStopSearch 1024 false 1 1000000000 = (false, false) ∧
      shouldStopSearch 1000 false 1 1000000000 = (true, true) ∧
      1024 % 1000 ≠ 0 := by
  decide

/-- **C6** (amended).  `shouldStopSearch` probes exactly at multiples of
1000 nodes: off the probe points it returns no-stop regardless of elapsed
time; at a probe point it stops (and latches the flag) exactly when the
elapsed time has reached `maxTimeMs`; and a latched flag stops the search
unconditionally. -/
theorem shouldStopSearch_cadence (n maxTimeMs elapsed : Nat) :
    (n % 1000 ≠ 0 → shouldStopSearch n false maxTimeMs elapsed = (false, false)) ∧
      (n % 1000 = 0 →
        shouldStopSearch n false maxTimeMs elapsed =
          (decide (maxTimeMs ≤ elapsed), decide (maxTimeMs ≤ elapsed))) ∧
      shouldStopSearch n true maxTimeMs elapsed = (true, true) := by
  refine ⟨fun h => ?_, fun h => ?_, rfl⟩
  · unfold shouldStopSearch
    simp [h]
  · unfold shouldStopSearch
    rcases le_or_lt maxTimeMs elapsed with hle | hlt
    · simp [h, hle, ge_iff_le]
    · simp [h, Nat.not_le.mpr hlt, ge_iff_le]

/-- Concrete instance of the amended C6 theorem: node counter 500 is not a
probe point, so a huge elapsed time is ignored. -/
theorem shouldStopSearch_cadence_witness :
    500 % 1000 ≠ 0 ∧ shouldStopSearch 500 false 1 1000000000 = (false, false) :=
  ⟨by decide, (shouldStopSearch_cadence 500 1 1000000000).1 (by decide)⟩

/-! ## C7: difficulty layer refines search -/

/-- When both adjustment probabilities are 0 and every random draw is
nonnegative, `applyHumanBehavior` is the identity on the search result. -/
theorem applyHumanBehavior_id (position : Position) (sr : SearchResult)
    (config : DifficultyConfig) (style : PlayStyle) (rng : Nat → Rat)
    (hb : config.blunderProbability = 0) (hm : config.mistakeProbability = 0)
    (hrng : ∀ i, 0 ≤ rng i) :
    applyHumanBehavior position sr config style rng = sr := by
  by_cases h : (generateLegalMoves position).length ≤ 1
  · simp [applyHumanBehavior, h]
  · have h0 : ¬ rng 0 < config.blunderProbability := by
      rw [hb]; exact not_lt.mpr (hrng 0)
    have h1 : ¬ rng 1 < config.mistakeProbability := by
      rw [hm]; exact not_lt.mpr (hrng 1)
    simp [applyHumanBehavior, h, h0, h1]

/-- With at most one legal move, `applyHumanBehavior` returns the search
result unchanged whatever the configuration. -/
theorem applyHumanBehavior_single (position : Position) (sr : SearchResult)
    (config : DifficultyConfig) (style : PlayStyle) (rng : Nat → Rat)
    (h : (generateLegalMoves position).length ≤ 1) :
    applyHumanBehavior position sr config style rng = sr := by
  simp [applyHumanBehavior, h]

/-- **C7**.  At Expert difficulty (mistake and blunder probability 0),
`calculateAiMove` returns exactly the result of `search` with the
configured depth and time budget, whenever the random oracle draws
nonnegative values (as `Math.random()` does); and at every difficulty,
a position with at most one legal move returns the search result
unchanged. -/
theorem calculateAiMove_expert_refines_search (e : Nat → Nat) (rng : Nat → Rat)
    (position : Position) (style : PlayStyle) (engine : EngineState)
    (hrng : ∀ i, 0 ≤ rng i) :
    calculateAiMove e rng position Difficulty.expert style engine =
      search e position
        { maxDepth := 6, maxTimeMs := 5000, difficulty := Difficulty.expert,
          playStyle := style, mistakeProbability := 0 } engine ∧
      ∀ d : Difficulty, (generateLegalMoves position).length ≤ 1 →
        calculateAiMove e rng position d style engine =
          search e position
            { maxDepth := (DIFFICULTY_CONFIGS d).maxDepth,
              maxTimeMs := (DIFFICULTY_CONFIGS d).maxTimeMs, difficulty := d,
              playStyle := style,
              mistakeProbability := (DIFFICULTY_CONFIGS d).mistakeProbability } engine := by
  constructor
  · unfold calculateAiMove
    dsimp only
    rw [applyHumanBehavior_id _ _ _ _ _ rfl rfl hrng]
    rfl
  · intro d hle
    unfold calculateAiMove
    dsimp only
    rw [applyHumanBehavior_single _ _ _ _ _ hle]

/-- Concrete instance of the C7 theorem: a constant one-half oracle is
nonnegative, and Expert `calculateAiMove` on the sample position equals the
plain search. -/
theorem calculateAiMove_expert_refines_search_witness :
    (∀ i : Nat, 0 ≤ rngHalf i) ∧
      calculateAiMove elapsedZero rngHalf samplePosKPk Difficulty.expert
          PlayStyle.balanced EngineState.initial =
        search elapsedZero samplePosKPk
          { maxDepth := 6, maxTimeMs := 5000, difficulty := Difficulty.expert,
            playStyle := PlayStyle.balanced, mistakeProbability := 0 }
          EngineState.initial :=
  ⟨fun i => by unfold rngHalf; norm_num,
    (calculateAiMove_expert_refines_search elapsedZero rngHalf samplePosKPk
      PlayStyle.balanced EngineState.initial (fun i => by unfold rngHalf; norm_num)).1⟩

/-! ## C9: check markers are never produced -/

/-- The inlined check helper of `notation.ts` returns `false` on every
position. -/
theorem isInCheckHelper_false (position : Position) : isInCheckHelper position = false := by
  unfold isInCheckHelper
  simp

/-- **C9**.  `moveToSanWithCheck` coincides with `moveToSan` on every
input: its check-detection helper is constantly false, so no move ever
receives a trailing + or # from this function. -/
theorem moveToSanWithCheck_eq_moveToSan (position : Position) (move : Move)
    (resultingPosition : Position) :
    moveToSanWithCheck position move resultingPosition = moveToSan position move := by
  unfold moveToSanWithCheck
  rw [isInCheckHelper_false]
  simp

end Chess
